import Mathlib

/-!
Verification development for the `acc-track-live` track-meet tracker.

This file shallowly embeds the data model (`data_model.py`), the scoring
constants (`config.py`), the mark normalizer and name/team splitter and
status inference (`scraper.py`), the scoring engine (`scoring.py`), and the
new-finals detection (`emailer.py`).  Python floats are modelled as `ℚ`,
Python dicts as a key list (insertion order) plus a total value function
that is zero off its support, Python sets of strings as deduplicated lists,
and `random.random()` as an oracle `ℕ → ℚ` consumed sequentially.  Python
`sorted` (a stable sort) is modelled by a stable insertion sort.
All definitions use structural recursion so they evaluate on concrete
inputs.
-/

/-! ## Data model (data_model.py) -/

inductive Gender where
  | WOMEN
  | MEN
  deriving DecidableEq, Repr

inductive RoundType where
  | PRELIM
  | FINAL
  | COMBINED_EVENT
  deriving DecidableEq, Repr

inductive EventStatus where
  | SCHEDULED
  | IN_PROGRESS
  | FINAL
  deriving DecidableEq, Repr

structure Athlete where
  name : String
  team : String
  seed_mark : Option String
  prelim_mark : Option String
  final_mark : Option String
  final_place : Option Nat
  points_scored : ℚ
  deriving DecidableEq, Repr

structure EventEntry where
  athlete : Athlete
  effective_seed : Option String
  projected_place : Option Nat
  deriving DecidableEq, Repr

/-- `MeetEvent` from `data_model.py`.  The `final_event`/`prelim_event`
back-references are omitted: they are only written during scraping and no
function embedded here reads them (prelim lookup in `scoring.py` scans
`state.events` by event code directly). -/
structure MeetEvent where
  event_name : String
  gender : Gender
  round_type : RoundType
  status : EventStatus
  event_code : String
  round_num : Nat
  compiled_url : String
  start_url : String
  day : String
  start_time : String
  entries : List EventEntry
  deriving DecidableEq, Repr

structure CombinedEventResult where
  event_name : String
  gender : Gender
  status : EventStatus
  scores_url : String
  athletes : List Athlete
  deriving DecidableEq, Repr

/-- `CombinedEventResult.is_complete`. -/
def CombinedEventResult.is_complete (c : CombinedEventResult) : Bool :=
  c.status == EventStatus.FINAL && !c.athletes.isEmpty

/-- `TeamScore` row.  The `events_scored` audit strings are presentation
only and kept as an opaque list. -/
structure TeamScore where
  team : String
  gender : Gender
  actual_points : ℚ
  events_scored : List String
  optimistic_ceiling : ℚ
  seed_projection : ℚ
  win_probability : ℚ
  deriving DecidableEq, Repr

/-- A fresh `TeamScore(team=t, gender=g)` with Python dataclass defaults. -/
def TeamScore.new (t : String) (g : Gender) : TeamScore :=
  ⟨t, g, 0, [], 0, 0, 0⟩

structure MeetState where
  meet_url : String
  meet_name : String
  last_scraped : String
  events : List MeetEvent
  combined_events : List CombinedEventResult
  previously_final : List String
  deriving DecidableEq, Repr

/-- Python `str.replace` on character lists: replace every non-overlapping
occurrence of `pat` left to right.  The fuel argument (instantiated with
the list length, which the recursion never exhausts, since each step
consumes at least one character) makes the recursion structural. -/
def replaceSubFuel (pat rep : List Char) : Nat → List Char → List Char
  | 0, cs => cs
  | _ + 1, [] => []
  | f + 1, c :: cs =>
    if pat ≠ [] ∧ pat.isPrefixOf (c :: cs) then
      rep ++ replaceSubFuel pat rep f ((c :: cs).drop pat.length)
    else
      c :: replaceSubFuel pat rep f cs

/-- Python `str.replace` (all occurrences, left to right). -/
def replaceSub (pat rep cs : List Char) : List Char :=
  replaceSubFuel pat rep cs.length cs

def trimChars (cs : List Char) : List Char :=
  ((cs.dropWhile Char.isWhitespace).reverse.dropWhile Char.isWhitespace).reverse

def MeetEvent.base_event_name (e : MeetEvent) : String :=
  ⟨trimChars (replaceSub "Men ".toList "".toList
      (replaceSub "Women ".toList "".toList e.event_name.toList))⟩

/-- Python `sub in s` on character lists. -/
def charsInfix (pat : List Char) : List Char → Bool
  | [] => pat.isEmpty
  | c :: cs => pat.isPrefixOf (c :: cs) || charsInfix pat cs

/-- `MeetEvent.is_sprint_event`. -/
def MeetEvent.is_sprint_event (e : MeetEvent) : Bool :=
  let name := e.base_event_name.toList.map Char.toLower
  ["60m", "200m", "400m", "60m hurdles"].any
    (fun s => charsInfix s.toList name)

/-- `MeetState.get_completed_finals`: gender matches and the event is
scoreable (final round with final status). -/
def MeetState.get_completed_finals (s : MeetState) (g : Gender) : List MeetEvent :=
  s.events.filter (fun e =>
    e.gender == g && e.round_type == RoundType.FINAL && e.status == EventStatus.FINAL)

/-- `MeetState.get_upcoming_finals`. -/
def MeetState.get_upcoming_finals (s : MeetState) (g : Gender) : List MeetEvent :=
  s.events.filter (fun e =>
    e.gender == g && e.round_type == RoundType.FINAL && !(e.status == EventStatus.FINAL))

/-! ## Scoring constants (config.py) -/

/-- `PLACE_POINTS.get(p, 0)`: the fixed points table `{1:10, 2:8, 3:6, 4:5,
5:4, 6:3, 7:2, 8:1}` with default 0. -/
def placePoints : Nat → ℚ
  | 1 => 10
  | 2 => 8
  | 3 => 6
  | 4 => 5
  | 5 => 4
  | 6 => 3
  | 7 => 2
  | 8 => 1
  | _ => 0

/-- `p in PLACE_POINTS` combined with Python truthiness of the place
(`a.final_place and a.final_place in PLACE_POINTS`). -/
def placeScores : Option Nat → Bool
  | some p => decide (1 ≤ p ∧ p ≤ 8)
  | none => false

def MONTE_CARLO_ITERATIONS : Nat := 10000

/-! ## String helpers and the mark normalizer (scraper.py) -/

/-- Python `str.replace("  ", " ")`: collapse non-overlapping double spaces
left to right. -/
def collapseTwoSpaces : List Char → List Char
  | ' ' :: ' ' :: cs => ' ' :: collapseTwoSpaces cs
  | c :: cs => c :: collapseTwoSpaces cs
  | [] => []

/-- `_normalize_mark`: strip, remove non-breaking spaces, collapse double
spaces (in that order, as in the source). -/
def normalizeMark (cs : List Char) : List Char :=
  collapseTwoSpaces ((trimChars cs).filter (fun c => !(c == '\u00A0')))

/-- Digit run to a natural number. -/
def digitsToNat (cs : List Char) : Nat :=
  cs.foldl (fun a c => 10 * a + (c.toNat - 48)) 0

/-- Python `float(...)` restricted to the decimal forms appearing in marks:
optional surrounding whitespace, optional sign, `digits`, `digits.digits`,
`digits.` or `.digits`.  Exponent, inf and nan forms are not modelled (no
mark uses them); anything else yields `none` (Python raises `ValueError`,
which every caller catches). -/
def pyFloat (cs : List Char) : Option ℚ :=
  let cs := trimChars cs
  let signed : ℚ × List Char :=
    match cs with
    | '+' :: r => (1, r)
    | '-' :: r => (-1, r)
    | r => (1, r)
  let sign := signed.1
  let body := signed.2
  let d1 := body.takeWhile Char.isDigit
  match body.drop d1.length with
  | [] => if d1.isEmpty then none else some (sign * (digitsToNat d1 : ℚ))
  | '.' :: fr =>
    let d2 := fr.takeWhile Char.isDigit
    if !(fr.drop d2.length).isEmpty then none
    else if d1.isEmpty && d2.isEmpty then none
    else some (sign * ((digitsToNat d1 : ℚ) + (digitsToNat d2 : ℚ) / (10 : ℚ) ^ d2.length))
  | _ => none

/-- Model of `re.sub(r"\s*\(.*\)", "", mark)`: with a greedy `.*` the single
replaced region runs from the first `(` that is followed by some `)`
(including the whitespace run immediately before that `(`) to the last `)`
of the string; if no such pair exists the string is unchanged. -/
def stripParen (cs : List Char) : List Char :=
  let f := cs.findIdx (fun c => c == '(')
  let rid := cs.reverse.findIdx (fun c => c == ')')
  if f < cs.length ∧ rid < cs.length ∧ f < cs.length - 1 - rid then
    let l := cs.length - 1 - rid
    ((cs.take f).reverse.dropWhile Char.isWhitespace).reverse ++ cs.drop (l + 1)
  else cs

/-- Model of `re.sub(r"[a-zA-Z]$", "", mark)`: drop one trailing ASCII
letter if present. -/
def stripTrailingLetter (cs : List Char) : List Char :=
  match cs.reverse with
  | c :: rest => if c.isAlpha then rest.reverse else cs
  | [] => cs

/-- Does the string match `^\d+-\d+`? -/
def feetInchesShape (cs : List Char) : Bool :=
  let d1 := cs.takeWhile Char.isDigit
  !d1.isEmpty &&
    (match cs.drop d1.length with
     | '-' :: r => (match r with | d :: _ => d.isDigit | [] => false)
     | _ => false)

/-- Python `str.split(sep)` for a single-character separator. -/
def splitOnChar (sep : Char) : List Char → List (List Char)
  | [] => [[]]
  | c :: cs =>
    if c == sep then [] :: splitOnChar sep cs
    else
      match splitOnChar sep cs with
      | g :: gs => (c :: g) :: gs
      | [] => [[c]]

/-- `_mark_to_seconds` from `scraper.py`: convert a mark string to a
comparable number, or `none` when unparseable.  Times `MM:SS.ss`/`SS.ss`
map to seconds; feet-inches `FF-II.ii` map to `-(feet*12+inches)`; the
listed status tokens and parse failures map to `none`. -/
def mark_to_seconds (mark : String) : Option ℚ :=
  let cs := (normalizeMark mark.toList).map Char.toUpper
  if ["DNS", "DNF", "DQ", "NH", "NM", "FOUL", ""].any (fun t => cs == t.toList) then
    none
  else
    let cs := stripParen cs
    let cs := trimChars (stripTrailingLetter cs)
    if feetInchesShape cs then
      let parts := splitOnChar '-' cs
      match pyFloat (parts.getD 0 []), pyFloat (parts.getD 1 []) with
      | some feet, some inches => some (-(feet * 12 + inches))
      | _, _ => none
    else if cs.contains ':' then
      let parts := splitOnChar ':' cs
      match pyFloat (parts.getD 0 []), pyFloat (parts.getD 1 []) with
      | some minutes, some seconds => some (minutes * 60 + seconds)
      | _, _ => none
    else
      pyFloat cs

/-! ## Name/team splitter (scraper.py `_split_athlete_team`) -/

/-- Bodies accepted by the year-tag pattern `(?:JR|SR|FR|SO|\d+)` with
`re.IGNORECASE`. -/
def isYearTagBody (cs : List Char) : Bool :=
  let up := cs.map Char.toUpper
  up == "JR".toList || up == "SR".toList || up == "FR".toList || up == "SO".toList ||
    (!cs.isEmpty && cs.all Char.isDigit)

/-- Model of `re.sub(r'\s*\[(?:JR|SR|FR|SO|\d+)\]\s*$', '', raw)`: remove a
trailing bracketed year tag together with surrounding whitespace. -/
def stripYearSub (cs : List Char) : List Char :=
  let revNoWs := cs.reverse.dropWhile Char.isWhitespace
  match revNoWs with
  | ']' :: r =>
    let seg := r.takeWhile (fun c => !(c == '['))
    (match r.drop seg.length with
     | '[' :: rest =>
       if isYearTagBody seg.reverse then (rest.dropWhile Char.isWhitespace).reverse
       else cs
     | _ => cs)
  | _ => cs

/-- `ALL_CAPS_TEAMS` from the source ('URI' deliberately excluded there). -/
def ALL_CAPS_TEAMS : List String :=
  ["LSU", "TCU", "SMU", "UAB", "UTSA", "UTEP", "UCF", "BYU",
   "VCU", "UNLV", "UNC", "USC", "UCLA", "UCONN", "USF", "FIU",
   "FAU", "UMBC", "NJIT", "UMass"]

/-- The loop over `ALL_CAPS_TEAMS`: first entry whose uppercase form is a
suffix of the uppercased string and leaves a nonempty name part. -/
def capsSplit (cs : List Char) : List String → Option (String × String)
  | [] => none
  | team :: rest =>
    if (team.toList.map Char.toUpper).isSuffixOf (cs.map Char.toUpper) then
      if (trimChars (cs.take (cs.length - team.toList.length))).isEmpty then capsSplit cs rest
      else some (⟨trimChars (cs.take (cs.length - team.toList.length))⟩, team)
    else capsSplit cs rest

/-- Model of `re.search(r'([A-Z]{2,})((?:[A-Z][a-z].*))$', raw)`, returning
`match.start(2)`.  The match succeeds at the leftmost uppercase run of
length `u ≥ 3` whose following character is lowercase; the greedy group 1
backtracks to all but the last run letter, so group 2 starts at the last
letter of the run (offset `u - 1`, i.e. the length of the tail of the run
after its first character). -/
def upperRunSplit : List Char → Option Nat
  | [] => none
  | c :: rest =>
    if c.isUpper && decide (2 ≤ (rest.takeWhile Char.isUpper).length) &&
        (match rest.drop (rest.takeWhile Char.isUpper).length with
         | d :: _ => d.isLower
         | [] => false) then
      some (rest.takeWhile Char.isUpper).length
    else
      (upperRunSplit rest).map (· + 1)

/-- `_split_athlete_team` from `scraper.py`: normalize and strip the year
tag, then try the all-caps team suffixes, then the uppercase-run boundary,
else return the whole string with an empty team. -/
def split_athlete_team (raw : String) : String × String :=
  let cs := trimChars (stripYearSub (normalizeMark raw.toList))
  if cs.isEmpty then ("", "")
  else
    (capsSplit cs ALL_CAPS_TEAMS).getD
      ((upperRunSplit cs).elim (⟨cs⟩, "")
        (fun i => (⟨trimChars (cs.take i)⟩, ⟨trimChars (cs.drop i)⟩)))

/-! ## Stable sort (model of Python `sorted`) -/

/-- Insert `a` before the first element `b` with `le a b`.  With
`le a b := key a ≤ key b` this reproduces the stable order of Python
`sorted`. -/
def insertLe (le : α → α → Bool) (a : α) : List α → List α
  | [] => [a]
  | b :: l => if le a b then a :: b :: l else b :: insertLe le a l

/-- Stable insertion sort, the model of Python `sorted`. -/
def insSort (le : α → α → Bool) : List α → List α
  | [] => []
  | a :: l => insertLe le a (insSort le l)

theorem insertLe_perm (le : α → α → Bool) (a : α) (l : List α) :
    (insertLe le a l).Perm (a :: l) := by
  induction l with
  | nil => exact List.Perm.refl _
  | cons b t ih =>
    simp only [insertLe]
    split
    · exact List.Perm.refl _
    · exact (List.Perm.cons b ih).trans (List.Perm.swap a b t)

theorem insSort_perm (le : α → α → Bool) (l : List α) :
    (insSort le l).Perm l := by
  induction l with
  | nil => exact List.Perm.refl _
  | cons a t ih =>
    exact (insertLe_perm le a (insSort le t)).trans (List.Perm.cons a ih)

theorem insertLe_pairwise (le : α → α → Bool)
    (htot : ∀ x y, le x y = true ∨ le y x = true)
    (htrans : ∀ x y z, le x y = true → le y z = true → le x z = true)
    (a : α) (l : List α) (h : l.Pairwise (fun x y => le x y = true)) :
    (insertLe le a l).Pairwise (fun x y => le x y = true) := by
  induction l with
  | nil => simp [insertLe]
  | cons b t ih =>
    rcases h with _ | ⟨hb, ht⟩
    simp only [insertLe]
    split
    · rename_i hab
      refine List.Pairwise.cons ?_ (List.Pairwise.cons hb ht)
      intro y hy
      rw [List.mem_cons] at hy
      rcases hy with rfl | hy
      · exact hab
      · exact htrans a b y hab (hb _ hy)
    · rename_i hab
      have hba : le b a = true := by
        rcases htot a b with h1 | h1
        · exact absurd h1 hab
        · exact h1
      refine List.Pairwise.cons ?_ (ih ht)
      intro y hy
      have hy' := (insertLe_perm le a t).mem_iff.mp hy
      rw [List.mem_cons] at hy'
      rcases hy' with rfl | hy'
      · exact hba
      · exact hb _ hy'

theorem insSort_pairwise (le : α → α → Bool)
    (htot : ∀ x y, le x y = true ∨ le y x = true)
    (htrans : ∀ x y z, le x y = true → le y z = true → le x z = true)
    (l : List α) :
    (insSort le l).Pairwise (fun x y => le x y = true) := by
  induction l with
  | nil => simp [insSort]
  | cons a t ih => exact insertLe_pairwise le htot htrans a (insSort le t) ih

/-! ## Dict model -/

/-- A Python dict with values in `ℚ`: key list in insertion order plus a
total value function (zero off the key list, matching `defaultdict(int)` /
`dict.get(k, 0)` reads). -/
structure QDict where
  keys : List String
  val : String → ℚ

/-- `d.get(t, q)`. -/
def QDict.getD (d : QDict) (t : String) (q : ℚ) : ℚ :=
  if t ∈ d.keys then d.val t else q

/-- Key insertion preserving dict insertion order. -/
def addKey (ks : List String) (t : String) : List String :=
  if t ∈ ks then ks else ks ++ [t]

/-! ## Seed ordering helpers (scoring.py) -/

/-- `_seed_sort_key`: lower is better; unparseable seeds get the sentinel
`1e9`; field events (name contains a field keyword) negate the parsed
value. -/
def seed_sort_key (entry : EventEntry) (event : MeetEvent) : ℚ :=
  let mark := entry.effective_seed.getD ""
  match mark_to_seconds mark with
  | none => 1000000000
  | some val =>
    let name := event.base_event_name.toList.map Char.toLower
    if ["jump", "vault", "throw", "shot", "weight", "discus", "javelin", "hammer"].any
        (fun k => charsInfix k.toList name) then
      -val
    else
      val

/-- `sorted(entries, key=lambda e: _seed_sort_key(e, event))`. -/
def sortBySeed (event : MeetEvent) (l : List EventEntry) : List EventEntry :=
  insSort (fun a b => decide (seed_sort_key a event ≤ seed_sort_key b event)) l

/-- `_rank_entries_by_seed`: drop nameless entries, then stable sort by
seed key. -/
def rank_entries_by_seed (event : MeetEvent) : List EventEntry :=
  sortBySeed event (event.entries.filter (fun e => !(e.athlete.name == "")))

/-! ## Finalist selection (scoring.py `_get_finalist_entries`) -/

/-- The prelim-entry borrow: first event with the same code and gender,
round type Prelim, and a nonempty entry list. -/
def pairedPrelimEntries (s : MeetState) (g : Gender) (code : String) : List EventEntry :=
  match s.events.find? (fun o =>
      o.gender == g && o.event_code == code &&
      o.round_type == RoundType.PRELIM && !o.entries.isEmpty) with
  | some o => o.entries
  | none => []

/-- The entry pool before trimming: the final's own entries, else the
paired prelim's. -/
def finalistPool (event : MeetEvent) (s : MeetState) (g : Gender) : List EventEntry :=
  if event.entries.isEmpty then pairedPrelimEntries s g event.event_code
  else event.entries

/-- `_get_finalist_entries` (the Python default is `n_finalists = 8`;
callers here always pass `n` explicitly). -/
def get_finalist_entries (event : MeetEvent) (s : MeetState) (g : Gender) (n : Nat) :
    List EventEntry :=
  if (finalistPool event s g).isEmpty then []
  else if n < (finalistPool event s g).length then
    (sortBySeed event (finalistPool event s g)).take n
  else finalistPool event s g

/-! ## 1. Current actual score (scoring.py `compute_actual_scores`) -/

/-- The tie group at place `p`: athletes of the event whose recorded final
place is `p` (for `p` in the points table this is exactly the group the
source builds under `a.final_place and a.final_place in PLACE_POINTS`). -/
def placedAt (ev : MeetEvent) (p : Nat) : List Athlete :=
  (ev.entries.map (fun e => e.athlete)).filter (fun a => a.final_place == some p)

/-- `sum(PLACE_POINTS.get(place + i, 0) for i in range(n)) / n`. -/
def split_points (p n : Nat) : ℚ :=
  (((List.range n).map (fun i => placePoints (p + i))).sum) / (n : ℚ)

/-- Points a team collects from one completed final: every group of `n`
athletes tied at place `p` contributes `n`-times-counted equal splits. -/
def event_actual_points (ev : MeetEvent) (t : String) : ℚ :=
  ((List.range' 1 8).map (fun p =>
    ((placedAt ev p).countP (fun a => a.team == t) : ℚ) *
      split_points p (placedAt ev p).length)).sum

/-- The complete combined events of a gender. -/
def completeCombined (s : MeetState) (g : Gender) : List CombinedEventResult :=
  s.combined_events.filter (fun c => c.gender == g && c.is_complete)

/-- Points a team collects from one complete combined event: flat place
points per placed athlete, no tie splitting. -/
def combined_actual_points (c : CombinedEventResult) (t : String) : ℚ :=
  ((c.athletes.filter (fun a => a.team == t && placeScores a.final_place)).map
    (fun a => placePoints (a.final_place.getD 0))).sum

/-- Key creation order of `compute_actual_scores`: teams are inserted when
their first scoring athlete is processed (regular finals first, then
combined events). -/
def actualScoreKeys (s : MeetState) (g : Gender) : List String :=
  (((s.get_completed_finals g).flatMap (fun ev =>
      ((ev.entries.map (fun e => e.athlete)).filter
        (fun a => placeScores a.final_place)).map (fun a => a.team))) ++
   ((completeCombined s g).flatMap (fun c =>
      (c.athletes.filter (fun a => placeScores a.final_place)).map
        (fun a => a.team)))).foldl addKey []

/-- `compute_actual_scores` as a dict of `actual_points` per team. -/
def compute_actual_scores (s : MeetState) (g : Gender) : QDict :=
  { keys := actualScoreKeys s g
    val := fun t =>
      ((s.get_completed_finals g).map (fun ev => event_actual_points ev t)).sum +
      ((completeCombined s g).map (fun c => combined_actual_points c t)).sum }

/-! ## 2. Optimistic ceiling (scoring.py `compute_optimistic_ceiling`) -/

/-- The `all_teams` set: teams with a truthy name appearing in any event's
entries (insertion order of first appearance). -/
def eventEntryTeams (s : MeetState) : List String :=
  ((s.events.flatMap (fun e => e.entries)).filter
    (fun e => !(e.athlete.team == ""))).foldl (fun ks e => addKey ks e.athlete.team) []

/-- Per-event ceiling contribution of a team:
`sum(PLACE_POINTS.get(p, 0) for p in range(1, min(count + 1, 9)))` where
`count` is that team's entry count among the finalists. -/
def ceil_event_points (finalists : List EventEntry) (t : String) : ℚ :=
  let count := finalists.countP (fun e => e.athlete.team == t)
  ((List.range' 1 (min (count + 1) 9 - 1)).map placePoints).sum

/-- `compute_optimistic_ceiling`.  Teams in `all_teams` start from their
actual points (`actual.get(team, TeamScore(...)).actual_points`); other
touched teams start from the `defaultdict(int)` zero. -/
def compute_optimistic_ceiling (actual : QDict) (s : MeetState) (g : Gender) : QDict :=
  { keys :=
      ((s.get_upcoming_finals g).flatMap (fun ev =>
        let fins := get_finalist_entries ev s g 8
        if fins.isEmpty then [] else fins.map (fun e => e.athlete.team))).foldl
        addKey (eventEntryTeams s)
    val := fun t =>
      (if t ∈ eventEntryTeams s then actual.getD t 0 else 0) +
      ((s.get_upcoming_finals g).map (fun ev =>
        let fins := get_finalist_entries ev s g 8
        if fins.isEmpty then 0 else ceil_event_points fins t)).sum }

/-! ## 3. Seed projection (scoring.py `compute_seed_projection`) -/

/-- Tail of the tie-grouping loop: `h` is the current group head, `acc` the
group members collected so far (reversed); a new group starts at the first
entry whose key differs from the head's by at least `0.001`. -/
def tieGroupsGo (key : α → ℚ) (h : α) (acc : List α) : List α → List (List α)
  | [] => [h :: acc.reverse]
  | x :: xs =>
    if |key x - key h| < 1 / 1000 then tieGroupsGo key h (x :: acc) xs
    else (h :: acc.reverse) :: tieGroupsGo key x [] xs

/-- Split a ranked list into maximal runs of entries whose key is within
`0.001` of the run's first entry (the grouping loop of
`compute_seed_projection`). -/
def tieGroups (key : α → ℚ) : List α → List (List α)
  | [] => []
  | e :: rest => tieGroupsGo key e [] rest

/-- The place-assignment loop: for each tie group starting at `place`,
`tied_places = range(place, min(place + len(group), 9))`,
`avg = sum(points)/len(tied_places)`, awarded to each group member when
some tied place scores; the loop stops once `place > 8`.  Returns
`(group, award, gate)` triples (`gate` records whether the award branch
ran, which is what creates dict keys in the source). -/
def groupAdds : List (List EventEntry) → Nat → List (List EventEntry × ℚ × Bool)
  | [], _ => []
  | g :: gs, place =>
    if place ≤ 8 then
      let tied := List.range' place (min (place + g.length) 9 - place)
      let avg : ℚ := if tied.isEmpty then 0 else ((tied.map placePoints).sum) / (tied.length : ℚ)
      let gate := tied.any (fun p => decide (0 < placePoints p))
      (g, if gate then avg else 0, gate) :: groupAdds gs (place + g.length)
    else []

/-- A team's total over awarded tie groups: each group contributes its
member count times the group award. -/
def teamGroupPoints (t : String) (l : List (List EventEntry × ℚ × Bool)) : ℚ :=
  (l.map (fun ga => (ga.1.countP (fun e => e.athlete.team == t) : ℚ) * ga.2.1)).sum

/-- Per-event projection contribution of a team: group members multiply
their group's award. -/
def event_proj_points (ev : MeetEvent) (fins : List EventEntry) (t : String) : ℚ :=
  teamGroupPoints t
    (groupAdds (tieGroups (fun e => seed_sort_key e ev)
      (rank_entries_by_seed { ev with entries := fins })) 1)

/-- Teams whose dict key is created by the award loop of one event. -/
def proj_awarded_teams (ev : MeetEvent) (fins : List EventEntry) : List String :=
  let ranked := rank_entries_by_seed { ev with entries := fins }
  (groupAdds (tieGroups (fun e => seed_sort_key e ev) ranked) 1).flatMap
    (fun ga => if ga.2.2 then ga.1.map (fun e => e.athlete.team) else [])

/-- The temporary `event.entries` substitution of `compute_seed_projection`
and `compute_win_probability` (lines 217-221 and 394-397): swap in the
finalist entries, then swap the original list back. -/
def restoreSubstitution (s : MeetState) (g : Gender) (n : Nat) (e : MeetEvent) : MeetEvent :=
  if (e.gender == g && e.round_type == RoundType.FINAL &&
      !(e.status == EventStatus.FINAL)) &&
     !(get_finalist_entries e s g n).isEmpty then
    { { e with entries := get_finalist_entries e s g n } with entries := e.entries }
  else e

/-- `compute_seed_projection`, with the mutation of `event.entries`
threaded explicitly: the returned state is the input state after every
substitute-then-restore round trip. -/
def compute_seed_projection (actual : QDict) (s : MeetState) (g : Gender) :
    QDict × MeetState :=
  (⟨((s.get_upcoming_finals g).flatMap (fun ev =>
      let fins := get_finalist_entries ev s g 8
      if fins.isEmpty then [] else proj_awarded_teams ev fins)).foldl addKey actual.keys,
    fun t =>
      (if t ∈ actual.keys then actual.val t else 0) +
      ((s.get_upcoming_finals g).map (fun ev =>
        let fins := get_finalist_entries ev s g 8
        if fins.isEmpty then 0 else event_proj_points ev fins t)).sum⟩,
   { s with events := s.events.map (restoreSubstitution s g 8) })

/-! ## 4. Leverage index (scoring.py `compute_leverage_index`) -/

/-- One leverage record.  The `headline` string and the embedded event
object are presentation-only and omitted; the unused local
`max_pts_available` of the source is likewise dead code. -/
structure LeverageEntry where
  event_name : String
  leverage_score : ℚ
  max_swing : ℚ
  total_pts_available : ℚ
  n_teams : Nat
  top_teams_in_event : List String
  deriving DecidableEq, Repr

/-- `compute_leverage_index`: contention of the current top-5 teams times
the first-to-last-scoring-place swing, sorted descending. -/
def compute_leverage_index (s : MeetState) (g : Gender) (actual : QDict) :
    List LeverageEntry :=
  let sorted_teams := insSort (fun a b => decide (actual.val b ≤ actual.val a)) actual.keys
  let top_teams := sorted_teams.take 5
  let results := (s.get_upcoming_finals g).filterMap (fun ev =>
    if ev.entries.isEmpty then none
    else
      let teams_in_event := ev.entries.foldl (fun ks e => addKey ks e.athlete.team) []
      let max_swing := placePoints 1 - placePoints (min 8 ev.entries.length)
      let top_in := top_teams.filter (fun t => t ∈ teams_in_event)
      let athletes_scoring := min 8 ev.entries.length
      some { event_name := ev.event_name
             leverage_score := (top_in.length : ℚ) * max_swing
             max_swing := max_swing
             total_pts_available := ((List.range' 1 athletes_scoring).map placePoints).sum
             n_teams := teams_in_event.length
             top_teams_in_event := top_in })
  insSort (fun a b => decide (b.leverage_score ≤ a.leverage_score)) results

/-! ## 5. Monte Carlo win probability (scoring.py) -/

/-- `_get_top_seed_win_prob`. -/
def top_seed_win_prob (ev : MeetEvent) : ℚ :=
  let name := ev.base_event_name.toList.map Char.toLower
  let has := fun (k : String) => charsInfix k.toList name
  if has "60m" && !has "hurdle" then 0.42
  else if has "200m" then 0.40
  else if has "400m" then 0.38
  else if has "hurdle" then 0.45
  else if has "800m" then 0.30
  else if has "mile" || has "1000m" then 0.30
  else if has "3000m" || has "5000m" then 0.35
  else if has "relay" then 0.40
  else 0.40

/-- `_seed_rank_to_strength`: `0.65 ** (rank - 1)` (the `top_seed_prob`
argument is unused except through the `n <= 1` early return, which yields
the same value). -/
def seed_rank_to_strength (rank n : Nat) (_top : ℚ) : ℚ :=
  if n ≤ 1 then 1 else (0.65 : ℚ) ^ (rank - 1)

/-- Maximum of a value list, `max(...)` guarded by `if ... else 0`. -/
def pyMax : List ℚ → ℚ
  | [] => 0
  | x :: xs => xs.foldl max x

/-- The cumulative-probability draw of the sampling loop: index of the
first entry whose cumulative weight reaches `r` (`r <= cumulative`); when
no entry does, the result equals the list length and the caller falls back
to Python's `chosen_idx = 0` initialisation. -/
def chooseIdx (r : ℚ) : List (EventEntry × ℚ) → Nat
  | [] => 0
  | (_, p) :: rest => if r ≤ p then 0 else 1 + chooseIdx (r - p) rest

/-- One event of one trial: Plackett-Luce sampling of up to 8 places.  The
structural fuel equals the number of still-available places
(`9 - place`), so fuel 0 is exactly the loop exit `place > 8`. -/
def sample_places (rng : Nat → ℚ) :
    Nat → Nat → List (EventEntry × ℚ) → Nat → (String → ℚ) → (String → ℚ) × Nat
  | 0, idx, _, _, scores => (scores, idx)
  | _ + 1, idx, [], _, scores => (scores, idx)
  | f + 1, idx, e :: rest, place, scores =>
    let rem := e :: rest
    let total := (rem.map (fun x => x.2)).sum
    if total ≤ 0 then (scores, idx)
    else
      let r := rng idx * total
      let c0 := chooseIdx r rem
      let c := if c0 < rem.length then c0 else 0
      let winner := rem.getD c e
      let pts := placePoints place
      let scores' :=
        if 0 < pts then
          fun t => if t == winner.1.athlete.team then scores t + pts else scores t
        else scores
      sample_places rng f (idx + 1) (rem.eraseIdx c) (place + 1) scores'

/-- All events of one trial. -/
def run_events (rng : Nat → ℚ) :
    Nat → List (List (EventEntry × ℚ)) → (String → ℚ) → (String → ℚ) × Nat
  | idx, [], scores => (scores, idx)
  | idx, ed :: rest, scores =>
    let r := sample_places rng 8 idx ed 1 scores
    run_events rng r.2 rest r.1

/-- One trial's leaders: the teams tied at the simulated maximum
(`[t for t, s in sim_scores.items() if s == max_score]`). -/
def trialLeaders (rng : Nat → ℚ) (eventData : List (List (EventEntry × ℚ)))
    (base : String → ℚ) (allTeams : List String) (idx : Nat) : List String :=
  allTeams.filter (fun t =>
    decide ((run_events rng idx eventData base).1 t =
      pyMax (allTeams.map (run_events rng idx eventData base).1)))

/-- The trial loop: per trial, simulate every event from the base scores,
then credit `1/len(leaders)` to each team tied at the maximum. -/
def run_trials (rng : Nat → ℚ) (eventData : List (List (EventEntry × ℚ)))
    (base : String → ℚ) (allTeams : List String) :
    Nat → Nat → (String → ℚ) → (String → ℚ) × Nat
  | idx, 0, wc => (wc, idx)
  | idx, n + 1, wc =>
    run_trials rng eventData base allTeams (run_events rng idx eventData base).2 n
      (fun t =>
        if t ∈ trialLeaders rng eventData base allTeams idx then
          wc t + 1 / ((trialLeaders rng eventData base allTeams idx).length : ℚ)
        else wc t)

/-- Precomputed `(ranked, probs)` pairs (zipped) for the upcoming finals,
using the top-15 finalist pool. -/
def winProbEventData (s : MeetState) (g : Gender) : List (List (EventEntry × ℚ)) :=
  (s.get_upcoming_finals g).filterMap (fun ev =>
    let fins := get_finalist_entries ev s g 15
    if fins.isEmpty then none
    else
      let ranked := rank_entries_by_seed { ev with entries := fins }
      let n := ranked.length
      let strengths := (List.range n).map (fun i =>
        seed_rank_to_strength (i + 1) n (top_seed_win_prob ev))
      let total := strengths.sum
      some (ranked.zip (strengths.map (fun x => x / total))))

/-- The team universe of the simulation: `set(actual.keys())` plus every
ranked entry's team. -/
def winProbTeams (s : MeetState) (g : Gender) (actual : QDict) : List String :=
  ((winProbEventData s g).flatMap (fun ed => ed.map (fun x => x.1.athlete.team))).foldl
    addKey actual.keys

/-- The current actual-score leaders: teams whose points equal the maximum
(`[t for t, ts in actual.items() if ts.actual_points == max_pts]`). -/
def winnersOf (actual : QDict) : List String :=
  actual.keys.filter (fun t => decide (actual.val t = pyMax (actual.keys.map actual.val)))

/-- The accumulated win credits after the trial loop. -/
def winProbCounts (actual : QDict) (s : MeetState) (g : Gender)
    (n_iterations : Nat) (rng : Nat → ℚ) : String → ℚ :=
  (run_trials rng (winProbEventData s g) (fun t => actual.getD t 0)
    (winProbTeams s g actual) 0 n_iterations (fun _ => 0)).1

/-- `total = sum(win_counts.values())` (credits only ever land on teams of
`winProbTeams`, the simulation's key set). -/
def winProbTotal (actual : QDict) (s : MeetState) (g : Gender)
    (n_iterations : Nat) (rng : Nat → ℚ) : ℚ :=
  ((winProbTeams s g actual).map (winProbCounts actual s g n_iterations rng)).sum

/-- `compute_win_probability`, with the entry substitution threaded like
`compute_seed_projection` and the random source as an oracle.  With no
upcoming finals the result collapses to a tie split among the actual-score
leaders; otherwise each team's probability is its win credit over the
total credit, keyed by the teams with positive credit. -/
def compute_win_probability (actual : QDict) (s : MeetState) (g : Gender)
    (n_iterations : Nat) (rng : Nat → ℚ) : QDict × MeetState :=
  if (s.get_upcoming_finals g).isEmpty then
    (if actual.keys.isEmpty then ⟨[], fun _ => 0⟩
     else
       ⟨actual.keys,
        fun t => if t ∈ winnersOf actual then 1 / ((winnersOf actual).length : ℚ) else 0⟩,
     s)
  else
    (⟨(winProbTeams s g actual).filter
        (fun t => decide (0 < winProbCounts actual s g n_iterations rng t)),
      fun t => winProbCounts actual s g n_iterations rng t /
        winProbTotal actual s g n_iterations rng⟩,
     { s with events := s.events.map (restoreSubstitution s g 15) })

/-! ## Master function (scoring.py `run_all_analysis`) -/

/-- Python `int()` on a float: truncation toward zero. -/
def pyInt (q : ℚ) : ℤ :=
  if 0 ≤ q then ⌊q⌋ else ⌈q⌉

/-- Python `round()` to an integer: banker's rounding (half to even). -/
def pyRoundHalfEven (q : ℚ) : ℤ :=
  let n := ⌊q⌋
  let f := q - n
  if f < 1 / 2 then n
  else if 1 / 2 < f then n + 1
  else if Even n then n else n + 1

/-- Python `round(q, 1)`. -/
def pyRound1 (q : ℚ) : ℚ :=
  (pyRoundHalfEven (q * 10) : ℚ) / 10

structure AnalysisResult where
  gender : Gender
  team_scores : List TeamScore
  leverage_index : List LeverageEntry
  actual : QDict
  state : MeetState

/-- The union `set(actual) | set(ceilings) | set(projections)`. -/
def runAllTeams (s : MeetState) (g : Gender) : List String :=
  let actual := compute_actual_scores s g
  (((compute_optimistic_ceiling actual s g).keys) ++
    ((compute_seed_projection actual s g).1.keys)).foldl addKey actual.keys

/-- `run_all_analysis` with the two entry substitutions threaded through
the state: the second component is the state object after the whole run.
The layers run in source order (actual, ceiling, projection, leverage, win
probability -- the last one sees the state returned by the projection
layer); each row defaults the ceiling to the team's actual points,
truncates the projection with `int()` and rounds the win probability to
one decimal; the row list is built over the name-sorted team union and
then stable-sorted by descending seed projection. -/
def run_all_analysis (s : MeetState) (g : Gender) (rng : Nat → ℚ) :
    AnalysisResult × MeetState :=
  let actual := compute_actual_scores s g
  let ceilings := compute_optimistic_ceiling actual s g
  let pr := compute_seed_projection actual s g
  let projections := pr.1
  let s1 := pr.2
  let leverage := compute_leverage_index s1 g actual
  let wpr := compute_win_probability actual s1 g MONTE_CARLO_ITERATIONS rng
  let win_probs := wpr.1
  let s2 := wpr.2
  let rows := (insSort (fun a b => decide (a ≤ b)) (runAllTeams s g)).map (fun team =>
    let ap := actual.getD team 0
    { team := team
      gender := g
      actual_points := ap
      events_scored := []
      optimistic_ceiling := ceilings.getD team ap
      seed_projection := (pyInt (projections.getD team ap) : ℚ)
      win_probability := pyRound1 (win_probs.getD team 0 * 100) : TeamScore })
  let team_scores := insSort (fun a b => decide (b.seed_projection ≤ a.seed_projection)) rows
  ({ gender := g
     team_scores := team_scores
     leverage_index := leverage.take 8
     actual := actual
     state := s2 }, s2)

/-! ## New-finals detection (emailer.py `detect_new_finals`) -/

/-- The set of currently completed final event names, including complete
combined events (modelled as a deduplicated list). -/
def currentFinalNames (s : MeetState) : List String :=
  (s.combined_events.filter (fun c => c.is_complete)).foldl
    (fun ks c => addKey ks c.event_name)
    (((s.events.filter (fun e =>
        e.status == EventStatus.FINAL && e.round_type == RoundType.FINAL)).map
      (fun e => e.event_name)).foldl addKey [])

/-- `detect_new_finals`: `(sorted(current - previous), current)`. -/
def detect_new_finals (s : MeetState) (previous : List String) :
    List String × List String :=
  let current := currentFinalNames s
  (insSort (fun a b => decide (a ≤ b)) (current.filter (fun n => !(previous.contains n))),
   current)

/-! ## Status inference (scraper.py `_parse_result_page`, lines 444-456) -/

/-- The status decision over the collected athlete records: a start-list
parse is always Scheduled; a results parse is Final when some record has a
place 1-8 or a truthy mark, In Progress when records exist without either,
Scheduled when no records were extracted. -/
def result_page_status (is_start_list : Bool) (athletes : List Athlete) : EventStatus :=
  if athletes.isEmpty then EventStatus.SCHEDULED
  else if is_start_list then EventStatus.SCHEDULED
  else if athletes.any (fun a => placeScores a.final_place) ||
          athletes.any (fun a => !(a.final_mark.getD "" == "")) then EventStatus.FINAL
  else EventStatus.IN_PROGRESS

/-! ## Shared membership lemmas -/

theorem mem_addKey (ks : List String) (t x : String) :
    x ∈ addKey ks t ↔ x ∈ ks ∨ x = t := by
  unfold addKey
  split
  · rename_i ht
    constructor
    · exact fun h => Or.inl h
    · rintro (h | rfl)
      · exact h
      · exact ht
  · simp [List.mem_append]

theorem mem_foldl_addKey (l : List String) (init : List String) (x : String) :
    x ∈ l.foldl addKey init ↔ x ∈ init ∨ x ∈ l := by
  induction l generalizing init with
  | nil => simp
  | cons a t ih =>
    simp only [List.foldl_cons, ih, mem_addKey, List.mem_cons]
    tauto

theorem mem_insSort (le : α → α → Bool) (l : List α) (x : α) :
    x ∈ insSort le l ↔ x ∈ l :=
  (insSort_perm le l).mem_iff

/-! ## Claim C4 -/

/-- Claim C4: result-page status inference.  A start-list parse is always
Scheduled; a results parse is Final when some extracted record carries a
place in 1-8 or a truthy recorded mark, In Progress when records exist
without either, and Scheduled when no records were extracted. -/
theorem claim_C4 (isl : Bool) (athletes : List Athlete) :
    (athletes = [] → result_page_status isl athletes = EventStatus.SCHEDULED) ∧
    (isl = true → result_page_status isl athletes = EventStatus.SCHEDULED) ∧
    (isl = false → athletes ≠ [] →
      ((∃ a ∈ athletes,
          (∃ p, a.final_place = some p ∧ 1 ≤ p ∧ p ≤ 8) ∨ a.final_mark.getD "" ≠ "") →
        result_page_status isl athletes = EventStatus.FINAL) ∧
      ((∀ a ∈ athletes,
          (∀ p, a.final_place = some p → ¬(1 ≤ p ∧ p ≤ 8)) ∧ a.final_mark.getD "" = "") →
        result_page_status isl athletes = EventStatus.IN_PROGRESS)) := by
  refine ⟨fun h => by simp [result_page_status, h], fun h => by simp [result_page_status, h],
    fun hsl hne => ?_⟩
  subst hsl
  have hne' : athletes.isEmpty = false := by
    simpa [List.isEmpty_iff] using hne
  constructor
  · intro hex
    have hB : (athletes.any (fun a => placeScores a.final_place) ||
        athletes.any (fun a => !(a.final_mark.getD "" == ""))) = true := by
      rcases hex with ⟨a, ha, hcase⟩
      rcases hcase with ⟨p, hp, h1, h8⟩ | hm
      · refine (Bool.or_eq_true _ _).mpr
          (Or.inl (List.any_eq_true.mpr ⟨a, ha, by simp [hp, placeScores, h1, h8]⟩))
      · refine (Bool.or_eq_true _ _).mpr
          (Or.inr (List.any_eq_true.mpr ⟨a, ha, by simpa using hm⟩))
    simp [result_page_status, hne', hB]
  · intro hall
    have h1 : athletes.any (fun a => placeScores a.final_place) = false := by
      rw [List.any_eq_false]
      intro a ha
      have hfp := (hall a ha).1
      cases hp : a.final_place with
      | none => simp [placeScores]
      | some p =>
        simp only [placeScores, decide_eq_false_iff_not]
        simp only [decide_eq_true_eq]
        exact hfp p hp
    have h2 : athletes.any (fun a => !(a.final_mark.getD "" == "")) = false := by
      rw [List.any_eq_false]
      intro a ha
      simp [(hall a ha).2]
    simp [result_page_status, hne', h1, h2]

/-- Witness for C4 at concrete pages: a results row with place 1 is Final,
a start list with the same row is Scheduled, and a results row with no
mark and no place is In Progress. -/
theorem claim_C4_witness :
    result_page_status false [⟨"A", "T", none, none, some "10.30", some 1, 0⟩] =
        EventStatus.FINAL ∧
    result_page_status true [⟨"A", "T", none, none, none, some 1, 0⟩] =
        EventStatus.SCHEDULED ∧
    result_page_status false [⟨"A", "T", none, none, none, none, 0⟩] =
        EventStatus.IN_PROGRESS := by
  refine ⟨?_, ?_, ?_⟩
  · exact ((claim_C4 false _).2.2 rfl (by simp)).1
      ⟨_, List.mem_singleton.mpr rfl, Or.inl ⟨1, rfl, by omega, by omega⟩⟩
  · exact (claim_C4 true _).2.1 rfl
  · exact ((claim_C4 false _).2.2 rfl (by simp)).2
      (by intro a ha; rw [List.mem_singleton] at ha; subst ha; exact ⟨by simp, rfl⟩)

/-! ## Claim C8 -/

/-- Claim C8: `detect_new_finals` returns exactly the set difference of the
current completed-final names (regular completed finals plus complete
combined events) and the caller's previous set, together with the full
current set; being a pure function of its arguments, it modifies neither
input. -/
theorem claim_C8 (s : MeetState) (previous : List String) :
    (detect_new_finals s previous).2 = currentFinalNames s ∧
    (∀ n, n ∈ (detect_new_finals s previous).1 ↔
      n ∈ currentFinalNames s ∧ n ∉ previous) ∧
    (∀ n, n ∈ currentFinalNames s ↔
      ((∃ e ∈ s.events, e.status = EventStatus.FINAL ∧ e.round_type = RoundType.FINAL ∧
          e.event_name = n) ∨
       (∃ c ∈ s.combined_events, c.is_complete = true ∧ c.event_name = n))) := by
  refine ⟨rfl, fun n => ?_, fun n => ?_⟩
  · simp [detect_new_finals, mem_insSort, List.mem_filter]
  · unfold currentFinalNames
    rw [← List.foldl_map, mem_foldl_addKey, mem_foldl_addKey]
    simp only [List.mem_map, List.mem_filter, List.not_mem_nil, false_or,
      Bool.and_eq_true, beq_iff_eq]
    constructor
    · rintro (⟨e, ⟨he, hs, hr⟩, rfl⟩ | ⟨c, ⟨hc, hcomp⟩, rfl⟩)
      · exact Or.inl ⟨e, he, hs, hr, rfl⟩
      · exact Or.inr ⟨c, hc, hcomp, rfl⟩
    · rintro (⟨e, he, hs, hr, rfl⟩ | ⟨c, hc, hcomp, rfl⟩)
      · exact Or.inl ⟨e, ⟨he, hs, hr⟩, rfl⟩
      · exact Or.inr ⟨c, ⟨hc, hcomp⟩, rfl⟩

/-! ## Claim C7 -/

theorem isUpper_not_whitespace (c : Char) (h : c.isUpper = true) :
    c.isWhitespace = false := by
  simp only [Char.isWhitespace, Bool.or_eq_false_iff, decide_eq_false_iff_not]
  refine ⟨⟨⟨?_, ?_⟩, ?_⟩, ?_⟩ <;> rintro rfl <;> revert h <;> decide

theorem dropWhile_ne_nil_of_exists (p : α → Bool) (l : List α)
    (h : ∃ x ∈ l, p x = false) : l.dropWhile p ≠ [] := by
  intro hnil
  rw [List.dropWhile_eq_nil_iff] at hnil
  obtain ⟨x, hx, hpx⟩ := h
  rw [hnil x hx] at hpx
  simp at hpx

theorem trimChars_ne_nil_of_head_upper (d : Char) (tl : List Char)
    (hd : d.isUpper = true) : trimChars (d :: tl) ≠ [] := by
  unfold trimChars
  have hws := isUpper_not_whitespace d hd
  rw [List.dropWhile_cons, hws]
  simp only [Bool.false_eq_true, if_false, ne_eq, List.reverse_eq_nil_iff]
  apply dropWhile_ne_nil_of_exists
  exact ⟨d, List.mem_reverse.mpr (List.mem_cons_self d tl), hws⟩

theorem capsSplit_team_mem (cs : List Char) :
    ∀ (l : List String) (nt : String × String), capsSplit cs l = some nt → nt.2 ∈ l := by
  intro l
  induction l with
  | nil => intro nt h; simp [capsSplit] at h
  | cons team rest ih =>
    intro nt h
    unfold capsSplit at h
    split at h
    · split at h
      · exact List.mem_cons_of_mem team (ih nt h)
      · rw [Option.some_inj] at h
        subst h
        exact List.mem_cons_self team rest
    · exact List.mem_cons_of_mem team (ih nt h)

theorem drop_takeWhile_head (p : Char → Bool) (l : List Char) (k : Nat)
    (hk : k < (l.takeWhile p).length) :
    ∃ d tl, l.drop k = d :: tl ∧ p d = true := by
  obtain ⟨t2, ht⟩ := List.takeWhile_prefix (l := l) p
  have hd : (l.takeWhile p).drop k ≠ [] := by
    rw [ne_eq, List.drop_eq_nil_iff]
    omega
  cases hcase : (l.takeWhile p).drop k with
  | nil => exact absurd hcase hd
  | cons d dt =>
    refine ⟨d, dt ++ t2, ?_, ?_⟩
    · rw [← ht, List.drop_append_of_le_length (by omega), hcase, List.cons_append]
    · exact List.mem_takeWhile_imp (List.mem_of_mem_drop (hcase ▸ List.mem_cons_self d dt))

theorem upperRunSplit_drop (cs : List Char) :
    ∀ i, upperRunSplit cs = some i → ∃ d tl, cs.drop i = d :: tl ∧ d.isUpper = true := by
  induction cs with
  | nil => intro i h; simp [upperRunSplit] at h
  | cons c rest ih =>
    intro i h
    unfold upperRunSplit at h
    split at h
    · rename_i hcond
      rw [Option.some_inj] at h
      subst h
      rw [Bool.and_eq_true, Bool.and_eq_true, decide_eq_true_eq] at hcond
      obtain ⟨⟨hcu, h2⟩, _⟩ := hcond
      apply drop_takeWhile_head Char.isUpper (c :: rest)
      rw [List.takeWhile_cons, hcu]
      simp only [if_true, List.length_cons]
      omega
    · rw [Option.map_eq_some'] at h
      obtain ⟨j, hj, rfl⟩ := h
      obtain ⟨d, tl, hdrop, hup⟩ := ih j hj
      exact ⟨d, tl, by simpa using hdrop, hup⟩

/-- Claim C7: the name/team splitter strips the year tag then splits at a
known all-caps team suffix, else at the uppercase-run/TitleCase boundary,
else returns the whole preprocessed string with an empty team; on the
documented fixtures it produces the expected pairs. -/
theorem claim_C7 :
    split_athlete_team "Kaila JACKSONGeorgia [JR]" = ("Kaila JACKSON", "Georgia") ∧
    split_athlete_team "Brianna LYSTONLSU [SR]" = ("Brianna LYSTON", "LSU") ∧
    (∀ raw, (split_athlete_team raw).2 = "" →
      (split_athlete_team raw).1 = ⟨trimChars (stripYearSub (normalizeMark raw.toList))⟩) := by
  refine ⟨by decide, by decide, fun raw h => ?_⟩
  simp only [split_athlete_team] at h ⊢
  split at h
  · rename_i hemp
    rw [if_pos hemp]
    rw [List.isEmpty_iff] at hemp
    simp only [String.toList] at hemp ⊢
    rw [hemp]
  · rename_i hemp
    rw [if_neg hemp]
    cases hcaps : capsSplit (trimChars (stripYearSub (normalizeMark raw.toList))) ALL_CAPS_TEAMS with
    | some nt =>
      rw [hcaps, Option.getD_some] at h
      have hmem := capsSplit_team_mem _ _ _ hcaps
      rw [h] at hmem
      simp [ALL_CAPS_TEAMS] at hmem
    | none =>
      rw [hcaps, Option.getD_none] at h
      rw [Option.getD_none]
      cases hrun : upperRunSplit (trimChars (stripYearSub (normalizeMark raw.toList))) with
      | some i =>
        rw [hrun, Option.elim_some] at h
        obtain ⟨d, tl, hdrop, hup⟩ := upperRunSplit_drop _ i hrun
        have hne := trimChars_ne_nil_of_head_upper d tl hup
        rw [← hdrop] at hne
        exact absurd (congrArg String.data h) (by simpa using hne)
      | none =>
        rw [Option.elim_none]

/-- Witness for C7's fallback clause at a concrete unsplittable string. -/
theorem claim_C7_witness :
    (split_athlete_team "smith").2 = "" ∧
    (split_athlete_team "smith").1 = ⟨trimChars (stripYearSub (normalizeMark "smith".toList))⟩ :=
  ⟨by decide, claim_C7.2.2 "smith" (by decide)⟩

/-! ## Claim C2 -/

/-- A field event (base name contains "jump"). -/
def cexFieldEvent : MeetEvent :=
  { event_name := "Women High Jump", gender := Gender.WOMEN, round_type := RoundType.FINAL,
    status := EventStatus.SCHEDULED, event_code := "011", round_num := 1, compiled_url := "",
    start_url := "", day := "Friday", start_time := "", entries := [] }

/-- Entry seeded 13-04.50 (160.5 inches). -/
def cexJump1304 : EventEntry :=
  ⟨⟨"Ann ROSE", "Duke", some "13-04.50", none, none, none, 0⟩, some "13-04.50", none⟩

/-- Entry seeded 14-00 (168 inches, the better jump). -/
def cexJump1400 : EventEntry :=
  ⟨⟨"Bec DOVE", "Elon", some "14-00", none, none, none, 0⟩, some "14-00", none⟩

unseal Rat.add Rat.mul Rat.inv Rat.sub Rat.ofScientific in
/-- Claim C2, evaluated at the failing input: the normalizer maps
feet-inches marks to negative values ("negative so larger mark = lower
sort value"), but `_seed_sort_key` negates field-event values again, so in
a jump event the 13-04.50 seed receives key 160.5 and the better 14-00
seed receives key 168 and sorts behind it -- the larger feet-inches mark
is ranked worse, contradicting both the claim and the code's own
docstring (running marks and the unparseable-mark sentinel behave as
claimed). -/
theorem claim_C2_code_divergence :
    mark_to_seconds "13-04.50" = some (-(321 / 2 : ℚ)) ∧
    mark_to_seconds "14-00" = some ((-168 : ℚ)) ∧
    seed_sort_key cexJump1304 cexFieldEvent = 321 / 2 ∧
    seed_sort_key cexJump1400 cexFieldEvent = 168 ∧
    seed_sort_key cexJump1304 cexFieldEvent < seed_sort_key cexJump1400 cexFieldEvent ∧
    mark_to_seconds "DNS" = none ∧
    mark_to_seconds "1:45.23" = some (10523 / 100 : ℚ) := by
  refine ⟨by decide, by decide, by decide, by decide, by decide, by decide, by decide⟩

/-! ## Shared lemmas about the points table and range sums -/

theorem placePoints_nonneg (p : Nat) : 0 ≤ placePoints p := by
  unfold placePoints
  split <;> norm_num

theorem placePoints_eq_zero (p : Nat) (h : 9 ≤ p) : placePoints p = 0 := by
  obtain ⟨k, rfl⟩ := Nat.exists_eq_add_of_le h
  rw [Nat.add_comm]
  rfl

theorem placePoints_pos (p : Nat) (h1 : 1 ≤ p) (h8 : p ≤ 8) : 0 < placePoints p := by
  interval_cases p <;> norm_num [placePoints]

theorem placePoints_anti (i j : Nat) (h1 : 1 ≤ i) (hij : i ≤ j) :
    placePoints j ≤ placePoints i := by
  by_cases hj : 9 ≤ j
  · rw [placePoints_eq_zero j hj]
    exact placePoints_nonneg i
  · have hj8 : j ≤ 8 := by omega
    have hi8 : i ≤ 8 := by omega
    interval_cases i <;> interval_cases j <;> norm_num [placePoints]

theorem range'_map_sum (f : Nat → ℚ) (a n : Nat) :
    ((List.range' a n).map f).sum = ∑ i ∈ Finset.Ico a (a + n), f i := by
  induction n generalizing a with
  | zero => simp
  | succ n ih =>
    rw [List.range'_succ, List.map_cons, List.sum_cons, ih (a + 1),
      Finset.sum_eq_sum_Ico_succ_bot (show a < a + (n + 1) by omega) f]
    have : a + 1 + n = a + (n + 1) := by omega
    rw [this]

theorem sum_map_members_const (l : List α) (f : α → ℚ) (c : ℚ)
    (h : ∀ a ∈ l, f a = c) : (l.map f).sum = l.length * c := by
  induction l with
  | nil => simp
  | cons a t ih =>
    rw [List.map_cons, List.sum_cons, h a (List.mem_cons_self a t),
      ih (fun x hx => h x (List.mem_cons_of_mem a hx)), List.length_cons]
    push_cast
    ring

theorem sum_map_nonneg (l : List α) (f : α → ℚ) (h : ∀ a ∈ l, 0 ≤ f a) :
    0 ≤ (l.map f).sum := by
  induction l with
  | nil => simp
  | cons a t ih =>
    rw [List.map_cons, List.sum_cons]
    have := h a (List.mem_cons_self a t)
    have := ih (fun x hx => h x (List.mem_cons_of_mem a hx))
    linarith

/-! ## Claim C3 -/

/-- The per-athlete award stated by the claim (spec side): an athlete
recorded at place `P` in a group of `n` receives the sum of the table
values for places `P` through `P+n-1` divided by `n`; place 9 or higher
and absent places award nothing. -/
def claimPerAthleteAward (ev : MeetEvent) (a : Athlete) : ℚ :=
  if placeScores a.final_place then
    split_points (a.final_place.getD 0) (placedAt ev (a.final_place.getD 0)).length
  else 0

theorem sum_award_partition (l : List Athlete) (f : Athlete → ℚ)
    (hf : ∀ a ∈ l, (∀ p, a.final_place = some p → ¬(1 ≤ p ∧ p ≤ 8)) → f a = 0) :
    (l.map f).sum =
      ∑ p ∈ Finset.Ico 1 9, ((l.filter (fun a => a.final_place == some p)).map f).sum := by
  induction l with
  | nil => simp
  | cons a l ih =>
    have ih' := ih (fun x hx => hf x (List.mem_cons_of_mem a hx))
    rw [List.map_cons, List.sum_cons]
    by_cases hval : ∃ p0, a.final_place = some p0 ∧ 1 ≤ p0 ∧ p0 ≤ 8
    · obtain ⟨p0, hp0, h1, h8⟩ := hval
      have hsplit : ∀ p ∈ Finset.Ico 1 9,
          (((a :: l).filter (fun x => x.final_place == some p)).map f).sum =
          (if p = p0 then f a else 0) +
            ((l.filter (fun x => x.final_place == some p)).map f).sum := by
        intro p _
        rw [List.filter_cons]
        by_cases hpp : p = p0
        · subst hpp
          rw [if_pos (by simp [hp0]), if_pos rfl, List.map_cons, List.sum_cons]
        · rw [if_neg (by simp [hp0]; omega), if_neg hpp, zero_add]
      rw [Finset.sum_congr rfl hsplit, Finset.sum_add_distrib,
        Finset.sum_ite_eq' (Finset.Ico 1 9) p0 (fun _ => f a), ih']
      rw [if_pos (Finset.mem_Ico.mpr (by omega))]
    · push_neg at hval
      have hval' : ∀ p, a.final_place = some p → ¬(1 ≤ p ∧ p ≤ 8) := by
        intro p hp hc
        have := hval p hp hc.1
        omega
      have hfa : f a = 0 := hf a (List.mem_cons_self a l) hval'
      have hsplit : ∀ p ∈ Finset.Ico 1 9,
          (((a :: l).filter (fun x => x.final_place == some p)).map f).sum =
          ((l.filter (fun x => x.final_place == some p)).map f).sum := by
        intro p hp
        rw [Finset.mem_Ico] at hp
        rw [List.filter_cons, if_neg]
        intro hbeq
        rw [beq_iff_eq] at hbeq
        exact hval' p hbeq ⟨hp.1, by omega⟩
      rw [Finset.sum_congr rfl hsplit, ← ih', hfa, zero_add]

/-- The regular-finals part of `compute_actual_scores` pays each athlete
exactly the claimed per-athlete award. -/
theorem event_actual_points_eq_award_sum (ev : MeetEvent) (t : String) :
    event_actual_points ev t =
      (((ev.entries.map (fun e => e.athlete)).filter (fun a => a.team == t)).map
        (claimPerAthleteAward ev)).sum := by
  rw [sum_award_partition _ _ (by
    intro a _ hinv
    unfold claimPerAthleteAward
    cases hfp : a.final_place with
    | none => simp [placeScores]
    | some p => simp [placeScores, hinv p hfp])]
  unfold event_actual_points
  rw [range'_map_sum (fun p =>
    ((placedAt ev p).countP (fun a => a.team == t) : ℚ) *
      split_points p (placedAt ev p).length) 1 8]
  apply Finset.sum_congr rfl
  intro p hp
  rw [Finset.mem_Ico] at hp
  have hconst : ∀ a ∈ ((ev.entries.map (fun e => e.athlete)).filter
      (fun a => a.team == t)).filter (fun a => a.final_place == some p),
      claimPerAthleteAward ev a = split_points p (placedAt ev p).length := by
    intro a ha
    rw [List.mem_filter] at ha
    have hfp : a.final_place = some p := by
      have := ha.2
      rwa [beq_iff_eq] at this
    unfold claimPerAthleteAward
    rw [hfp]
    have : placeScores (some p) = true := by
      simp [placeScores]
      omega
    rw [if_pos this]
    simp
  rw [sum_map_members_const _ _ _ hconst]
  have hlen : (((ev.entries.map (fun e => e.athlete)).filter (fun a => a.team == t)).filter
      (fun a => a.final_place == some p)).length =
      (placedAt ev p).countP (fun a => a.team == t) := by
    rw [← List.countP_eq_length_filter, List.countP_filter]
    unfold placedAt
    rw [List.countP_filter]
    exact List.countP_congr (fun a _ => by rw [Bool.and_comm])
  rw [hlen]

/-- A completed regular final where "CCC" and "DDD" athletes tie for 3rd. -/
def demoTiedFinal : MeetEvent :=
  { event_name := "Women 60m", gender := Gender.WOMEN, round_type := RoundType.FINAL,
    status := EventStatus.FINAL, event_code := "002", round_num := 2, compiled_url := "",
    start_url := "", day := "Friday", start_time := "", entries :=
      [⟨⟨"Cay FAST", "CCC", none, none, some "7.30", some 3, 0⟩, none, none⟩,
       ⟨⟨"Dee QUICK", "DDD", none, none, some "7.30", some 3, 0⟩, none, none⟩] }

def demoTieState : MeetState :=
  ⟨"", "", "", [demoTiedFinal], [], []⟩

/-- A meet whose only scoring comes from a complete combined event in which
two athletes are both recorded at place 1. -/
def cexCombinedState : MeetState :=
  ⟨"", "", "", [],
   [⟨"Pentathlon", Gender.WOMEN, EventStatus.FINAL, "",
     [⟨"P One", "AAA", none, none, none, some 1, 0⟩,
      ⟨"P Two", "BBB", none, none, none, some 1, 0⟩]⟩], []⟩

unseal Rat.add Rat.mul Rat.inv Rat.sub Rat.ofScientific in
/-- Counterexample to claim C3 as stated: in a complete combined event two
athletes recorded at the same place 1 each receive the full 10 points from
`compute_actual_scores`, not the claimed split `(10+8)/2 = 9`. -/
theorem claim_C3_counterexample :
    (compute_actual_scores cexCombinedState Gender.WOMEN).val "AAA" = 10 ∧
    (compute_actual_scores cexCombinedState Gender.WOMEN).val "BBB" = 10 ∧
    (10 : ℚ) ≠ (placePoints 1 + placePoints 2) / 2 := by
  refine ⟨by decide, by decide, by decide⟩

unseal Rat.add Rat.mul Rat.inv Rat.sub Rat.ofScientific in
/-- Claim C3, amended: `compute_actual_scores` awards per the fixed table
(1 maps to 10 through 8 maps to 1), places 9 and up or absent award 0, and in
regular completed finals every group of `n` athletes recorded at place `P`
gives each member exactly the sum of the table values for places `P`
through `P+n-1` divided by `n` (two athletes tied for 3rd thus earn 5.5
each); in complete combined events, however, each placed athlete receives
the full table value with no tie splitting. -/
theorem claim_C3_amended :
    (placePoints 1 = 10 ∧ placePoints 2 = 8 ∧ placePoints 3 = 6 ∧ placePoints 4 = 5 ∧
     placePoints 5 = 4 ∧ placePoints 6 = 3 ∧ placePoints 7 = 2 ∧ placePoints 8 = 1) ∧
    (∀ p, 9 ≤ p → placePoints p = 0) ∧
    (∀ ev t, event_actual_points ev t =
      (((ev.entries.map (fun e => e.athlete)).filter (fun a => a.team == t)).map
        (claimPerAthleteAward ev)).sum) ∧
    ((compute_actual_scores demoTieState Gender.WOMEN).val "CCC" = 11 / 2 ∧
     (compute_actual_scores demoTieState Gender.WOMEN).val "DDD" = 11 / 2) := by
  refine ⟨⟨rfl, rfl, rfl, rfl, rfl, rfl, rfl, rfl⟩, placePoints_eq_zero,
    event_actual_points_eq_award_sum, by decide, by decide⟩

/-- Witness for C3's amended claim: the hypothesised clauses applied at
place 9 and at the demo event. -/
theorem claim_C3_witness :
    placePoints 9 = 0 ∧
    event_actual_points demoTiedFinal "CCC" =
      (((demoTiedFinal.entries.map (fun e => e.athlete)).filter
        (fun a => a.team == "CCC")).map (claimPerAthleteAward demoTiedFinal)).sum :=
  ⟨claim_C3_amended.2.1 9 (by omega), claim_C3_amended.2.2.1 demoTiedFinal "CCC"⟩

/-! ## Claim C5 -/

theorem seedLe_total (ev : MeetEvent) (x y : EventEntry) :
    decide (seed_sort_key x ev ≤ seed_sort_key y ev) = true ∨
    decide (seed_sort_key y ev ≤ seed_sort_key x ev) = true := by
  rcases le_total (seed_sort_key x ev) (seed_sort_key y ev) with h | h
  · exact Or.inl (decide_eq_true h)
  · exact Or.inr (decide_eq_true h)

theorem seedLe_trans (ev : MeetEvent) (x y z : EventEntry)
    (h1 : decide (seed_sort_key x ev ≤ seed_sort_key y ev) = true)
    (h2 : decide (seed_sort_key y ev ≤ seed_sort_key z ev) = true) :
    decide (seed_sort_key x ev ≤ seed_sort_key z ev) = true := by
  rw [decide_eq_true_eq] at h1 h2 ⊢
  exact le_trans h1 h2

/-- Claim C5: `_get_finalist_entries` uses the final's own entries when any
exist, else borrows the paired prelim's (same code and gender, round
Prelim, nonempty), and trims a pool larger than `n` to exactly the top-`n`
by seed key; in particular an upcoming final with no entries but a paired
nonempty prelim yields a nonempty pool. -/
theorem claim_C5 (ev : MeetEvent) (s : MeetState) (g : Gender) (n : Nat) :
    (¬ev.entries.isEmpty = true → finalistPool ev s g = ev.entries) ∧
    (ev.entries.isEmpty = true →
      finalistPool ev s g = pairedPrelimEntries s g ev.event_code) ∧
    (∀ e ∈ get_finalist_entries ev s g n, e ∈ finalistPool ev s g) ∧
    ((finalistPool ev s g).length ≤ n →
      get_finalist_entries ev s g n = finalistPool ev s g) ∧
    (n < (finalistPool ev s g).length →
      (get_finalist_entries ev s g n).length = n ∧
      ∃ rest, (get_finalist_entries ev s g n ++ rest).Perm (finalistPool ev s g) ∧
        ∀ e ∈ get_finalist_entries ev s g n, ∀ e2 ∈ rest,
          seed_sort_key e ev ≤ seed_sort_key e2 ev) ∧
    (1 ≤ n → ¬(finalistPool ev s g).isEmpty = true →
      ¬(get_finalist_entries ev s g n).isEmpty = true) ∧
    (ev.entries.isEmpty = true →
      (∃ o ∈ s.events, o.gender = g ∧ o.event_code = ev.event_code ∧
        o.round_type = RoundType.PRELIM ∧ o.entries ≠ []) →
      ¬(finalistPool ev s g).isEmpty = true) := by
  have hsortlen : (sortBySeed ev (finalistPool ev s g)).length =
      (finalistPool ev s g).length :=
    (insSort_perm _ _).length_eq
  have hpair : List.take n (sortBySeed ev (finalistPool ev s g)) ++
      List.drop n (sortBySeed ev (finalistPool ev s g)) =
      sortBySeed ev (finalistPool ev s g) := List.take_append_drop n _
  refine ⟨?_, ?_, ?_, ?_, ?_, ?_, ?_⟩
  · intro h
    unfold finalistPool
    rw [if_neg h]
  · intro h
    unfold finalistPool
    rw [if_pos h]
  · intro e he
    unfold get_finalist_entries at he
    split at he
    · simp at he
    · split at he
      · exact (insSort_perm _ _).mem_iff.mp (List.mem_of_mem_take he)
      · exact he
  · intro hle
    unfold get_finalist_entries
    split
    · rename_i h
      rw [List.isEmpty_iff] at h
      rw [h]
    · rw [if_neg (by omega)]
  · intro hlt
    unfold get_finalist_entries
    rw [if_neg (by rw [List.isEmpty_iff]; intro h; rw [h] at hlt; simp at hlt), if_pos hlt]
    constructor
    · rw [List.length_take, hsortlen]
      omega
    · refine ⟨List.drop n (sortBySeed ev (finalistPool ev s g)), ?_, ?_⟩
      · rw [hpair]
        exact insSort_perm _ _
      · intro e he e2 he2
        have hpw : List.Pairwise
            (fun x y => decide (seed_sort_key x ev ≤ seed_sort_key y ev) = true)
            (sortBySeed ev (finalistPool ev s g)) :=
          insSort_pairwise
            (fun a b => decide (seed_sort_key a ev ≤ seed_sort_key b ev))
            (seedLe_total ev) (seedLe_trans ev) (finalistPool ev s g)
        rw [← hpair] at hpw
        have := (List.pairwise_append.mp hpw).2.2 e he e2 he2
        rwa [decide_eq_true_eq] at this
  · intro hn hne
    unfold get_finalist_entries
    rw [if_neg hne]
    split
    · rename_i hlt
      rw [List.isEmpty_iff]
      intro h
      have := congrArg List.length h
      rw [List.length_take, hsortlen] at this
      simp only [List.length_nil] at this
      rcases Nat.min_eq_zero_iff.mp this with h0 | h0
      · omega
      · rw [h0] at hlt
        omega
    · exact hne
  · intro hemp hex
    unfold finalistPool
    rw [if_pos hemp]
    unfold pairedPrelimEntries
    have : (s.events.find? (fun o =>
        o.gender == g && o.event_code == ev.event_code &&
        o.round_type == RoundType.PRELIM && !o.entries.isEmpty)).isSome = true := by
      rw [List.find?_isSome]
      obtain ⟨o, ho, h1, h2, h3, h4⟩ := hex
      exact ⟨o, ho, by simp [h1, h2, h3, h4]⟩
    cases hfind : s.events.find? (fun o =>
        o.gender == g && o.event_code == ev.event_code &&
        o.round_type == RoundType.PRELIM && !o.entries.isEmpty) with
    | none => rw [hfind] at this; simp at this
    | some o =>
      have hprop := List.find?_some hfind
      simp only [Bool.and_eq_true, Bool.not_eq_true'] at hprop
      rw [hprop.2]
      simp

/-- An upcoming final with no entries yet. -/
def demoUpcomingFinal : MeetEvent :=
  { event_name := "Women 200m", gender := Gender.WOMEN, round_type := RoundType.FINAL,
    status := EventStatus.SCHEDULED, event_code := "005", round_num := 2, compiled_url := "",
    start_url := "", day := "Saturday", start_time := "", entries := [] }

/-- The paired prelim (same code, gender, round Prelim) with three seeded
entries from three distinct teams. -/
def demoPrelim : MeetEvent :=
  { event_name := "Women 200m", gender := Gender.WOMEN, round_type := RoundType.PRELIM,
    status := EventStatus.FINAL, event_code := "005", round_num := 1, compiled_url := "",
    start_url := "", day := "Friday", start_time := "", entries :=
      [⟨⟨"Ana ONE", "XXA", some "22.91", none, none, none, 0⟩, some "22.91", none⟩,
       ⟨⟨"Bee TWO", "XXB", some "23.05", none, none, none, 0⟩, some "23.05", none⟩,
       ⟨⟨"Cat THREE", "XXC", some "23.40", none, none, none, 0⟩, some "23.40", none⟩] }

def demoPrelimState : MeetState :=
  ⟨"", "", "", [demoUpcomingFinal, demoPrelim], [], []⟩

/-- Witness for C5: the empty-entries final borrows the paired prelim's
pool and yields a nonempty finalist list. -/
theorem claim_C5_witness :
    demoUpcomingFinal.entries.isEmpty = true ∧
    ¬(finalistPool demoUpcomingFinal demoPrelimState Gender.WOMEN).isEmpty = true ∧
    ¬(get_finalist_entries demoUpcomingFinal demoPrelimState Gender.WOMEN 8).isEmpty = true := by
  have hpool : ¬(finalistPool demoUpcomingFinal demoPrelimState Gender.WOMEN).isEmpty = true :=
    (claim_C5 demoUpcomingFinal demoPrelimState Gender.WOMEN 8).2.2.2.2.2.2 (by decide)
      ⟨demoPrelim, by decide, by decide, by decide, by decide, by decide⟩
  exact ⟨by decide, hpool,
    (claim_C5 demoUpcomingFinal demoPrelimState Gender.WOMEN 8).2.2.2.2.2.1 (by omega) hpool⟩

/-! ## Claim C6 -/

theorem sum_map_div_list (l : List α) (f : α → ℚ) (c : ℚ) :
    (l.map (fun t => f t / c)).sum = (l.map f).sum / c := by
  induction l with
  | nil => simp
  | cons a t ih => rw [List.map_cons, List.sum_cons, ih, List.map_cons, List.sum_cons, add_div]

theorem single_le_sum_list (l : List α) (f : α → ℚ) (x : α) (hx : x ∈ l)
    (h : ∀ y ∈ l, 0 ≤ f y) : f x ≤ (l.map f).sum := by
  induction l with
  | nil => simp at hx
  | cons a t ih =>
    rw [List.map_cons, List.sum_cons]
    rcases List.mem_cons.mp hx with rfl | hx'
    · have : 0 ≤ (t.map f).sum :=
        sum_map_nonneg t f (fun y hy => h y (List.mem_cons_of_mem _ hy))
      linarith
    · have h1 := ih hx' (fun y hy => h y (List.mem_cons_of_mem _ hy))
      have h2 := h a (List.mem_cons_self a t)
      linarith

theorem sum_map_filter_of_zero (l : List α) (f : α → ℚ) (p : α → Bool)
    (h : ∀ x ∈ l, ¬p x = true → f x = 0) :
    ((l.filter p).map f).sum = (l.map f).sum := by
  induction l with
  | nil => simp
  | cons a t ih =>
    have ih' := ih (fun x hx => h x (List.mem_cons_of_mem a hx))
    rw [List.filter_cons]
    by_cases hpa : p a = true
    · rw [if_pos hpa, List.map_cons, List.sum_cons, ih', List.map_cons, List.sum_cons]
    · rw [if_neg hpa, ih', List.map_cons, List.sum_cons,
        h a (List.mem_cons_self a t) hpa, zero_add]

theorem sum_map_ite_count (l : List α) (p : α → Prop) [DecidablePred p] (c : ℚ) :
    (l.map (fun t => if p t then c else 0)).sum = (l.countP (fun t => decide (p t)) : ℚ) * c := by
  induction l with
  | nil => simp
  | cons a t ih =>
    by_cases hpa : p a
    · rw [List.map_cons, List.sum_cons, if_pos hpa, ih,
        List.countP_cons_of_pos _ _ (by simpa using hpa)]
      push_cast
      ring
    · rw [List.map_cons, List.sum_cons, if_neg hpa, ih,
        List.countP_cons_of_neg _ _ (by simpa using hpa), zero_add]

theorem pyMax_mem_aux (xs : List ℚ) : ∀ acc, xs.foldl max acc ∈ acc :: xs := by
  induction xs with
  | nil => intro acc; simp
  | cons x t ih =>
    intro acc
    rw [List.foldl_cons]
    rcases List.mem_cons.mp (ih (max acc x)) with hm | hm
    · rcases max_choice acc x with h | h <;> rw [hm, h]
      · exact List.mem_cons_self _ _
      · exact List.mem_cons_of_mem _ (List.mem_cons_self _ _)
    · exact List.mem_cons_of_mem _ (List.mem_cons_of_mem _ hm)

theorem pyMax_mem (l : List ℚ) (h : l ≠ []) : pyMax l ∈ l := by
  cases l with
  | nil => exact absurd rfl h
  | cons x xs => exact pyMax_mem_aux xs x

theorem le_foldl_max (xs : List ℚ) : ∀ acc, acc ≤ xs.foldl max acc ∧
    ∀ y ∈ xs, y ≤ xs.foldl max acc := by
  induction xs with
  | nil => intro acc; exact ⟨le_refl acc, by simp⟩
  | cons x t ih =>
    intro acc
    rw [List.foldl_cons]
    obtain ⟨h1, h2⟩ := ih (max acc x)
    refine ⟨le_trans (le_max_left acc x) h1, ?_⟩
    intro y hy
    rcases List.mem_cons.mp hy with rfl | hy'
    · exact le_trans (le_max_right acc y) h1
    · exact h2 y hy'

theorem le_pyMax (l : List ℚ) (y : ℚ) (hy : y ∈ l) : y ≤ pyMax l := by
  cases l with
  | nil => simp at hy
  | cons x xs =>
    rcases List.mem_cons.mp hy with rfl | hy'
    · exact (le_foldl_max xs y).1
    · exact (le_foldl_max xs x).2 y hy'

theorem run_trials_nonneg (rng : Nat → ℚ) (eventData : List (List (EventEntry × ℚ)))
    (base : String → ℚ) (allTeams : List String) :
    ∀ (trials idx : Nat) (wc : String → ℚ), (∀ t, 0 ≤ wc t) →
      ∀ t, 0 ≤ (run_trials rng eventData base allTeams idx trials wc).1 t := by
  intro trials
  induction trials with
  | zero => intro idx wc h t; exact h t
  | succ n ih =>
    intro idx wc h t
    refine ih _ _ (fun u => ?_) t
    by_cases hm : u ∈ trialLeaders rng eventData base allTeams idx
    · rw [if_pos hm]
      have h1 : (0 : ℚ) ≤
          1 / (((trialLeaders rng eventData base allTeams idx).length : ℚ)) := by
        rw [one_div_nonneg]
        positivity
      have h2 := h u
      linarith
    · rw [if_neg hm]
      exact h u

/-- Claim C6: whenever the returned map is nonempty (some team has win
credit), the probabilities of `compute_win_probability` sum to exactly 1,
for every trial count and every random oracle; and in the degenerate
no-upcoming-finals case the map is keyed by all of `actual`'s teams,
assigning `1/k` to each of the `k` teams tied at the maximum actual score
and 0 to every other team. -/
theorem claim_C6 (actual : QDict) (s : MeetState) (g : Gender) (trials : Nat) (rng : Nat → ℚ) :
    ((compute_win_probability actual s g trials rng).1.keys ≠ [] →
      ((compute_win_probability actual s g trials rng).1.keys.map
        (compute_win_probability actual s g trials rng).1.val).sum = 1) ∧
    ((s.get_upcoming_finals g).isEmpty = true → actual.keys ≠ [] →
      (compute_win_probability actual s g trials rng).1.keys = actual.keys ∧
      (∀ t ∈ actual.keys,
        ((∀ u ∈ actual.keys, actual.val u ≤ actual.val t) →
          (compute_win_probability actual s g trials rng).1.val t =
            1 / ((winnersOf actual).length : ℚ)) ∧
        ((∃ u ∈ actual.keys, ¬actual.val u ≤ actual.val t) →
          (compute_win_probability actual s g trials rng).1.val t = 0))) := by
  by_cases hup : (s.get_upcoming_finals g).isEmpty = true
  · by_cases hak : actual.keys.isEmpty = true
    · simp only [compute_win_probability, if_pos hup, if_pos hak]
      constructor
      · intro hne
        exact absurd rfl hne
      · intro _ hne
        rw [List.isEmpty_iff] at hak
        exact absurd hak hne
    · simp only [compute_win_probability, if_pos hup, if_neg hak]
      have hkeysne : actual.keys ≠ [] := by
        intro h
        rw [h] at hak
        exact hak rfl
      have hmaxmem : pyMax (actual.keys.map actual.val) ∈ actual.keys.map actual.val :=
        pyMax_mem _ (by simpa using hkeysne)
      obtain ⟨t0, ht0, hvt0⟩ := List.mem_map.mp hmaxmem
      have hwne : winnersOf actual ≠ [] := by
        intro hw
        have : t0 ∈ winnersOf actual := by
          unfold winnersOf
          rw [List.mem_filter]
          exact ⟨ht0, by rw [decide_eq_true_eq]; exact hvt0⟩
        rw [hw] at this
        simp at this
      have hwpos : 0 < ((winnersOf actual).length : ℚ) := by
        have := List.length_pos.mpr hwne
        positivity
      constructor
      · intro _
        have hcongr : actual.keys.map (fun t =>
            if t ∈ winnersOf actual then 1 / ((winnersOf actual).length : ℚ) else 0) =
            actual.keys.map (fun t =>
            if actual.val t = pyMax (actual.keys.map actual.val) then
              1 / ((winnersOf actual).length : ℚ) else 0) := by
          apply List.map_congr_left
          intro x hx
          by_cases hpx : actual.val x = pyMax (actual.keys.map actual.val)
          · rw [if_pos hpx, if_pos]
            unfold winnersOf
            rw [List.mem_filter]
            exact ⟨hx, by rw [decide_eq_true_eq]; exact hpx⟩
          · rw [if_neg hpx, if_neg]
            unfold winnersOf
            rw [List.mem_filter]
            rintro ⟨-, hdec⟩
            rw [decide_eq_true_eq] at hdec
            exact hpx hdec
        rw [hcongr, sum_map_ite_count]
        have hcount : (actual.keys.countP (fun t =>
            decide (actual.val t = pyMax (actual.keys.map actual.val)))) =
            (winnersOf actual).length := by
          unfold winnersOf
          rw [List.countP_eq_length_filter]
        rw [hcount, mul_one_div, div_self (ne_of_gt hwpos)]
      · intro _ _
        refine ⟨by simp, fun t ht => ⟨fun hmax => ?_, fun hnmax => ?_⟩⟩
        · rw [if_pos]
          unfold winnersOf
          rw [List.mem_filter]
          refine ⟨ht, ?_⟩
          rw [decide_eq_true_eq]
          have h1 : actual.val t ≤ pyMax (actual.keys.map actual.val) :=
            le_pyMax _ _ (List.mem_map.mpr ⟨t, ht, rfl⟩)
          have h2 : pyMax (actual.keys.map actual.val) ≤ actual.val t := by
            rw [← hvt0]
            exact hmax t0 ht0
          linarith
        · rw [if_neg]
          unfold winnersOf
          rw [List.mem_filter]
          rintro ⟨-, hdec⟩
          rw [decide_eq_true_eq] at hdec
          obtain ⟨u, hu, hnu⟩ := hnmax
          apply hnu
          rw [hdec]
          exact le_pyMax _ _ (List.mem_map.mpr ⟨u, hu, rfl⟩)
  · simp only [compute_win_probability, if_neg hup]
    have hwc0 : ∀ t, 0 ≤ winProbCounts actual s g trials rng t := by
      intro t
      unfold winProbCounts
      exact run_trials_nonneg _ _ _ _ trials 0 (fun _ => 0) (fun _ => le_refl 0) t
    constructor
    · intro hne
      obtain ⟨t0, ht0⟩ := List.exists_mem_of_ne_nil _ hne
      rw [List.mem_filter, decide_eq_true_eq] at ht0
      have htot : 0 < winProbTotal actual s g trials rng := by
        unfold winProbTotal
        calc (0 : ℚ) < winProbCounts actual s g trials rng t0 := ht0.2
        _ ≤ _ := single_le_sum_list _ _ t0 ht0.1 (fun y _ => hwc0 y)
      rw [sum_map_div_list, sum_map_filter_of_zero _ _ _ (by
        intro x _ hx
        rw [decide_eq_true_eq] at hx
        push_neg at hx
        exact le_antisymm hx (hwc0 x))]
      exact div_self (ne_of_gt htot)
    · intro h
      exact absurd h hup

/-- Witness for C6 at a concrete degenerate meet: both teams are tied at
the top, the returned map is nonempty, and the probabilities sum to 1. -/
theorem claim_C6_witness :
    (compute_win_probability (compute_actual_scores demoTieState Gender.WOMEN)
      demoTieState Gender.WOMEN MONTE_CARLO_ITERATIONS (fun _ => 0)).1.keys ≠ [] ∧
    ((compute_win_probability (compute_actual_scores demoTieState Gender.WOMEN)
      demoTieState Gender.WOMEN MONTE_CARLO_ITERATIONS (fun _ => 0)).1.keys.map
      (compute_win_probability (compute_actual_scores demoTieState Gender.WOMEN)
        demoTieState Gender.WOMEN MONTE_CARLO_ITERATIONS (fun _ => 0)).1.val).sum = 1 := by
  have hkeys : (compute_win_probability (compute_actual_scores demoTieState Gender.WOMEN)
      demoTieState Gender.WOMEN MONTE_CARLO_ITERATIONS (fun _ => 0)).1.keys ≠ [] := by decide
  exact ⟨hkeys, (claim_C6 (compute_actual_scores demoTieState Gender.WOMEN)
    demoTieState Gender.WOMEN MONTE_CARLO_ITERATIONS (fun _ => 0)).1 hkeys⟩

/-! ## Claim C9 -/

theorem restoreSubstitution_id (s : MeetState) (g : Gender) (n : Nat) (e : MeetEvent) :
    restoreSubstitution s g n e = e := by
  unfold restoreSubstitution
  split
  · rfl
  · rfl

theorem events_map_restore (s : MeetState) (g : Gender) (n : Nat) :
    s.events.map (restoreSubstitution s g n) = s.events := by
  have h : s.events.map (restoreSubstitution s g n) = s.events.map id :=
    List.map_congr_left (fun e _ => restoreSubstitution_id s g n e)
  rw [h, List.map_id]

theorem state_restore (s : MeetState) (g : Gender) (n : Nat) :
    { s with events := s.events.map (restoreSubstitution s g n) } = s := by
  rw [events_map_restore]

theorem proj_state_restored (actual : QDict) (s : MeetState) (g : Gender) :
    (compute_seed_projection actual s g).2 = s :=
  state_restore s g 8

theorem winprob_state_restored (actual : QDict) (s : MeetState) (g : Gender)
    (n : Nat) (rng : Nat → ℚ) :
    (compute_win_probability actual s g n rng).2 = s := by
  unfold compute_win_probability
  split
  · rfl
  · exact state_restore s g 15

/-- Claim C9: the projection and Monte-Carlo layers restore every
temporarily substituted entry list, so the full analysis leaves the input
`MeetState` unchanged, and re-running the pipeline on the returned state
reproduces the same analysis; in particular the actual, projection and
ceiling numbers are identical on a re-run (they do not depend on the
random oracle at all). -/
theorem claim_C9 (s : MeetState) (g : Gender) (rng : Nat → ℚ) :
    (compute_seed_projection (compute_actual_scores s g) s g).2 = s ∧
    (compute_win_probability (compute_actual_scores s g) s g MONTE_CARLO_ITERATIONS rng).2 = s ∧
    (run_all_analysis s g rng).2 = s ∧
    run_all_analysis (run_all_analysis s g rng).2 g rng = run_all_analysis s g rng ∧
    compute_actual_scores (run_all_analysis s g rng).2 g = compute_actual_scores s g ∧
    compute_optimistic_ceiling (compute_actual_scores s g) (run_all_analysis s g rng).2 g =
      compute_optimistic_ceiling (compute_actual_scores s g) s g ∧
    (compute_seed_projection (compute_actual_scores s g) (run_all_analysis s g rng).2 g).1 =
      (compute_seed_projection (compute_actual_scores s g) s g).1 := by
  have hproj := proj_state_restored (compute_actual_scores s g) s g
  have hrun : (run_all_analysis s g rng).2 = s := by
    show (compute_win_probability (compute_actual_scores s g)
      (compute_seed_projection (compute_actual_scores s g) s g).2 g
      MONTE_CARLO_ITERATIONS rng).2 = s
    rw [hproj]
    exact winprob_state_restored _ s g _ rng
  exact ⟨hproj, winprob_state_restored _ s g _ rng, hrun, by rw [hrun], by rw [hrun],
    by rw [hrun], by rw [hrun]⟩

/-! ## Claim C10 -/

/-- Claim C10: every team of the published per-gender table gets a row
whose `seed_projection` is the `int()` truncation of the computed
projection (defaulting to the team's actual points when the team is
missing from the projection map), while the row's `actual_points` field
keeps the exact rational value. -/
theorem claim_C10 (s : MeetState) (g : Gender) (rng : Nat → ℚ) (team : String)
    (hteam : team ∈ runAllTeams s g) :
    ∃ row ∈ (run_all_analysis s g rng).1.team_scores,
      row.team = team ∧
      row.actual_points = (compute_actual_scores s g).getD team 0 ∧
      row.seed_projection =
        ((pyInt ((compute_seed_projection (compute_actual_scores s g) s g).1.getD team
          ((compute_actual_scores s g).getD team 0))) : ℚ) := by
  refine ⟨{ team := team
            gender := g
            actual_points := (compute_actual_scores s g).getD team 0
            events_scored := []
            optimistic_ceiling :=
              (compute_optimistic_ceiling (compute_actual_scores s g) s g).getD team
                ((compute_actual_scores s g).getD team 0)
            seed_projection :=
              ((pyInt ((compute_seed_projection (compute_actual_scores s g) s g).1.getD team
                ((compute_actual_scores s g).getD team 0))) : ℚ)
            win_probability :=
              pyRound1 (((compute_win_probability (compute_actual_scores s g)
                (compute_seed_projection (compute_actual_scores s g) s g).2 g
                MONTE_CARLO_ITERATIONS rng).1.getD team 0) * 100) },
    ?_, rfl, rfl, rfl⟩
  have hts : (run_all_analysis s g rng).1.team_scores =
      insSort (fun a b : TeamScore => decide (b.seed_projection ≤ a.seed_projection))
        ((insSort (fun a b : String => decide (a ≤ b)) (runAllTeams s g)).map
          (fun tm =>
            ({ team := tm
               gender := g
               actual_points := (compute_actual_scores s g).getD tm 0
               events_scored := []
               optimistic_ceiling :=
                 (compute_optimistic_ceiling (compute_actual_scores s g) s g).getD tm
                   ((compute_actual_scores s g).getD tm 0)
               seed_projection :=
                 ((pyInt ((compute_seed_projection (compute_actual_scores s g) s g).1.getD tm
                   ((compute_actual_scores s g).getD tm 0))) : ℚ)
               win_probability :=
                 pyRound1 (((compute_win_probability (compute_actual_scores s g)
                   (compute_seed_projection (compute_actual_scores s g) s g).2 g
                   MONTE_CARLO_ITERATIONS rng).1.getD tm 0) * 100) } : TeamScore))) := rfl
  rw [hts, mem_insSort]
  exact List.mem_map.mpr ⟨team, (mem_insSort _ _ _).mpr hteam, rfl⟩

unseal Rat.add Rat.mul Rat.inv Rat.sub Rat.ofScientific in
/-- Witness for C10 at the tied demo meet: team CCC carries exact actual
points 5.5, the computed projection is 5.5, and the published row holds
the truncated value 5. -/
theorem claim_C10_witness :
    "CCC" ∈ runAllTeams demoTieState Gender.WOMEN ∧
    (∃ row ∈ (run_all_analysis demoTieState Gender.WOMEN (fun _ => 0)).1.team_scores,
      row.team = "CCC" ∧
      row.actual_points = (compute_actual_scores demoTieState Gender.WOMEN).getD "CCC" 0 ∧
      row.seed_projection =
        ((pyInt ((compute_seed_projection (compute_actual_scores demoTieState Gender.WOMEN)
            demoTieState Gender.WOMEN).1.getD "CCC"
          ((compute_actual_scores demoTieState Gender.WOMEN).getD "CCC" 0))) : ℚ)) ∧
    (compute_actual_scores demoTieState Gender.WOMEN).getD "CCC" 0 = 11 / 2 ∧
    (compute_seed_projection (compute_actual_scores demoTieState Gender.WOMEN)
        demoTieState Gender.WOMEN).1.getD "CCC"
      ((compute_actual_scores demoTieState Gender.WOMEN).getD "CCC" 0) = 11 / 2 ∧
    ((pyInt (11 / 2 : ℚ)) : ℚ) = 5 := by
  have hmem : "CCC" ∈ runAllTeams demoTieState Gender.WOMEN := by decide
  exact ⟨hmem, claim_C10 demoTieState Gender.WOMEN (fun _ => 0) "CCC" hmem,
    by decide, by decide, by decide⟩

/-! ## Claim C1 -/

theorem countP_flatten_sum (L : List (List α)) (p : α → Bool) :
    L.flatten.countP p = (L.map (fun l => l.countP p)).sum := by
  induction L with
  | nil => simp
  | cons h t ih => simp [List.countP_append, ih]

theorem tieGroupsGo_flatten (key : α → ℚ) (h : α) (acc l : List α) :
    (tieGroupsGo key h acc l).flatten = (h :: acc.reverse) ++ l := by
  induction l generalizing h acc with
  | nil => simp [tieGroupsGo]
  | cons x xs ih =>
    unfold tieGroupsGo
    split
    · rw [ih]
      simp
    · rw [List.flatten_cons, ih]
      simp

theorem tieGroups_flatten (key : α → ℚ) (l : List α) :
    (tieGroups key l).flatten = l := by
  cases l with
  | nil => rfl
  | cons e rest =>
    rw [show tieGroups key (e :: rest) = tieGroupsGo key e [] rest from rfl,
      tieGroupsGo_flatten]
    rfl

theorem tieGroups_lengths_sum (key : α → ℚ) (l : List α) :
    ((tieGroups key l).map List.length).sum = l.length := by
  rw [← List.length_flatten, tieGroups_flatten]

theorem tieGroups_countP_sum (key : α → ℚ) (l : List α) (p : α → Bool) :
    ((tieGroups key l).map (fun grp => grp.countP p)).sum = l.countP p := by
  rw [← countP_flatten_sum, tieGroups_flatten]

theorem split_points_nonneg (p n : Nat) : 0 ≤ split_points p n := by
  unfold split_points
  exact div_nonneg (sum_map_nonneg _ _ (fun i _ => placePoints_nonneg (p + i)))
    (Nat.cast_nonneg n)

theorem event_actual_points_nonneg (ev : MeetEvent) (t : String) :
    0 ≤ event_actual_points ev t := by
  unfold event_actual_points
  exact sum_map_nonneg _ _ (fun p _ =>
    mul_nonneg (Nat.cast_nonneg _) (split_points_nonneg _ _))

theorem combined_actual_points_nonneg (c : CombinedEventResult) (t : String) :
    0 ≤ combined_actual_points c t := by
  unfold combined_actual_points
  exact sum_map_nonneg _ _ (fun a _ => placePoints_nonneg _)

theorem actual_val_nonneg (s : MeetState) (g : Gender) (t : String) :
    0 ≤ (compute_actual_scores s g).val t := by
  show 0 ≤ ((s.get_completed_finals g).map (fun ev => event_actual_points ev t)).sum +
      ((completeCombined s g).map (fun c => combined_actual_points c t)).sum
  exact add_nonneg
    (sum_map_nonneg _ _ (fun ev _ => event_actual_points_nonneg ev t))
    (sum_map_nonneg _ _ (fun c _ => combined_actual_points_nonneg c t))

theorem groupAdds_award_nonneg (gs : List (List EventEntry)) (p : Nat) :
    ∀ ga ∈ groupAdds gs p, 0 ≤ ga.2.1 := by
  induction gs generalizing p with
  | nil =>
    intro ga h
    simp [groupAdds] at h
  | cons g rest ih =>
    intro ga hga
    unfold groupAdds at hga
    by_cases h8 : p ≤ 8
    · rw [if_pos h8] at hga
      simp only [List.mem_cons] at hga
      rcases hga with h | h
      · subst h
        dsimp only
        split
        · split
          · exact le_refl 0
          · exact div_nonneg (sum_map_nonneg _ _ (fun q _ => placePoints_nonneg q))
              (Nat.cast_nonneg _)
        · exact le_refl 0
      · exact ih (p + g.length) ga h
    · rw [if_neg h8] at hga
      exact absurd hga (List.not_mem_nil ga)

theorem teamGroupPoints_cons (t : String) (grp : List EventEntry) (aw : ℚ) (gt : Bool)
    (l : List (List EventEntry × ℚ × Bool)) :
    teamGroupPoints t ((grp, aw, gt) :: l) =
      (grp.countP (fun e => e.athlete.team == t) : ℚ) * aw + teamGroupPoints t l := rfl

theorem teamGroupPoints_nonneg (t : String) (l : List (List EventEntry × ℚ × Bool))
    (h : ∀ ga ∈ l, 0 ≤ ga.2.1) : 0 ≤ teamGroupPoints t l := by
  unfold teamGroupPoints
  exact sum_map_nonneg _ _ (fun ga hga => mul_nonneg (Nat.cast_nonneg _) (h ga hga))

theorem event_proj_points_nonneg (ev : MeetEvent) (fins : List EventEntry) (t : String) :
    0 ≤ event_proj_points ev fins t := by
  unfold event_proj_points
  exact teamGroupPoints_nonneg _ _ (groupAdds_award_nonneg _ 1)

theorem ceil_event_points_nonneg (finalists : List EventEntry) (t : String) :
    0 ≤ ceil_event_points finalists t := by
  show 0 ≤ ((List.range' 1
      (min (finalists.countP (fun e => e.athlete.team == t) + 1) 9 - 1)).map
      placePoints).sum
  exact sum_map_nonneg _ _ (fun q _ => placePoints_nonneg q)

theorem avg_block_le (p a k : Nat) (hp : 1 ≤ p) (hak : a ≤ k) (hk9 : p + k ≤ 9) :
    (a : ℚ) * ((∑ i ∈ Finset.range k, placePoints (p + i)) / (k : ℚ)) ≤
      ∑ i ∈ Finset.range a, placePoints (p + i) := by
  rcases Nat.eq_zero_or_pos k with hk0 | hkpos
  · subst hk0
    have ha0 : a = 0 := Nat.le_zero.mp hak
    subst ha0
    simp
  · have hkQ : (0 : ℚ) < (k : ℚ) := by exact_mod_cast hkpos
    have hka : ((k - a : ℕ) : ℚ) = (k : ℚ) - (a : ℚ) := by push_cast [hak]; ring
    have hb1 : (∑ i ∈ Finset.range (k - a), placePoints (p + (a + i))) ≤
        ((k - a : ℕ) : ℚ) * placePoints (p + a) := by
      have h := Finset.sum_le_card_nsmul (Finset.range (k - a))
        (fun i => placePoints (p + (a + i))) (placePoints (p + a))
        (fun i _ => placePoints_anti (p + a) (p + (a + i)) (by omega) (by omega))
      simpa [Finset.card_range, nsmul_eq_mul] using h
    have hb2 : (a : ℚ) * placePoints (p + a) ≤
        ∑ i ∈ Finset.range a, placePoints (p + i) := by
      have h := Finset.card_nsmul_le_sum (Finset.range a)
        (fun i => placePoints (p + i)) (placePoints (p + a))
        (fun i hi => placePoints_anti (p + i) (p + a) (by omega)
          (by have := Finset.mem_range.mp hi; omega))
      simpa [Finset.card_range, nsmul_eq_mul] using h
    have h3 : (a : ℚ) * (∑ i ∈ Finset.range (k - a), placePoints (p + (a + i))) ≤
        ((k : ℚ) - (a : ℚ)) * ∑ i ∈ Finset.range a, placePoints (p + i) :=
      calc (a : ℚ) * (∑ i ∈ Finset.range (k - a), placePoints (p + (a + i)))
          ≤ (a : ℚ) * (((k - a : ℕ) : ℚ) * placePoints (p + a)) :=
            mul_le_mul_of_nonneg_left hb1 (Nat.cast_nonneg a)
        _ = ((k - a : ℕ) : ℚ) * ((a : ℚ) * placePoints (p + a)) := by ring
        _ ≤ ((k - a : ℕ) : ℚ) * ∑ i ∈ Finset.range a, placePoints (p + i) :=
            mul_le_mul_of_nonneg_left hb2 (Nat.cast_nonneg _)
        _ = ((k : ℚ) - (a : ℚ)) * ∑ i ∈ Finset.range a, placePoints (p + i) := by
            rw [hka]
    have hsplit : (∑ i ∈ Finset.range k, placePoints (p + i)) =
        (∑ i ∈ Finset.range a, placePoints (p + i)) +
          ∑ i ∈ Finset.range (k - a), placePoints (p + (a + i)) := by
      rw [← Finset.sum_range_add, Nat.add_sub_cancel' hak]
    rw [← mul_div_assoc, div_le_iff₀ hkQ, hsplit]
    nlinarith [h3]

set_option maxHeartbeats 1000000 in
theorem teamGroupPoints_le (t : String) (gs : List (List EventEntry)) :
    ∀ p : Nat, 1 ≤ p → p + (gs.map List.length).sum ≤ 9 →
      teamGroupPoints t (groupAdds gs p) ≤
        ∑ i ∈ Finset.range
            ((gs.map (fun grp => grp.countP (fun e => e.athlete.team == t))).sum),
          placePoints (p + i) := by
  induction gs with
  | nil =>
    intro p hp hlen
    simp [groupAdds, teamGroupPoints]
  | cons g rest ih =>
    intro p hp hlen
    by_cases h8 : p ≤ 8
    · have hk9 : p + g.length ≤ 9 := by
        simp only [List.map_cons, List.sum_cons] at hlen
        omega
      have hmin : min (p + g.length) 9 - p = g.length := by omega
      have hcons : groupAdds (g :: rest) p =
          if p ≤ 8 then
            (g,
              if (List.range' p (min (p + g.length) 9 - p)).any
                  (fun q => decide (0 < placePoints q)) then
                (if (List.range' p (min (p + g.length) 9 - p)).isEmpty then 0 else
                  ((List.range' p (min (p + g.length) 9 - p)).map placePoints).sum /
                    (((List.range' p (min (p + g.length) 9 - p)).length : ℚ)))
              else 0,
              (List.range' p (min (p + g.length) 9 - p)).any
                (fun q => decide (0 < placePoints q))) ::
              groupAdds rest (p + g.length)
          else [] := rfl
      rw [hcons, if_pos h8, teamGroupPoints_cons, hmin]
      simp only [List.map_cons, List.sum_cons]
      rw [Finset.sum_range_add]
      have hLeq : (List.range' p g.length).length = g.length := List.length_range' p 1 g.length
      have hSeq : ((List.range' p g.length).map placePoints).sum =
          ∑ i ∈ Finset.range g.length, placePoints (p + i) := by
        rw [range'_map_sum, Finset.sum_Ico_eq_sum_range]
        rw [show p + g.length - p = g.length from by omega]
      have hbound : (if (List.range' p g.length).any (fun q => decide (0 < placePoints q)) then
            (if (List.range' p g.length).isEmpty then 0 else
              ((List.range' p g.length).map placePoints).sum /
                (((List.range' p g.length).length : ℚ)))
          else 0) ≤
          (∑ i ∈ Finset.range g.length, placePoints (p + i)) / (g.length : ℚ) := by
        have hnn : 0 ≤ (∑ i ∈ Finset.range g.length, placePoints (p + i)) / (g.length : ℚ) :=
          div_nonneg (Finset.sum_nonneg (fun i _ => placePoints_nonneg (p + i)))
            (Nat.cast_nonneg _)
        split
        · split
          · exact hnn
          · rw [hSeq, hLeq]
        · exact hnn
      have hc : g.countP (fun e => e.athlete.team == t) ≤ g.length :=
        List.countP_le_length _
      have hstep1 : (g.countP (fun e => e.athlete.team == t) : ℚ) *
          (if (List.range' p g.length).any (fun q => decide (0 < placePoints q)) then
            (if (List.range' p g.length).isEmpty then 0 else
              ((List.range' p g.length).map placePoints).sum /
                (((List.range' p g.length).length : ℚ)))
          else 0) ≤
          ∑ i ∈ Finset.range (g.countP (fun e => e.athlete.team == t)),
            placePoints (p + i) :=
        le_trans (mul_le_mul_of_nonneg_left hbound (Nat.cast_nonneg _))
          (avg_block_le p _ g.length hp hc hk9)
      have hrest9 : (p + g.length) + (rest.map List.length).sum ≤ 9 := by
        simp only [List.map_cons, List.sum_cons] at hlen
        omega
      have hstep2 := ih (p + g.length) (by omega) hrest9
      have hshift : (∑ i ∈ Finset.range ((rest.map
            (fun grp => grp.countP (fun e => e.athlete.team == t))).sum),
            placePoints (p + g.length + i)) ≤
          ∑ i ∈ Finset.range ((rest.map
            (fun grp => grp.countP (fun e => e.athlete.team == t))).sum),
            placePoints (p + (g.countP (fun e => e.athlete.team == t) + i)) :=
        Finset.sum_le_sum (fun i _ =>
          placePoints_anti (p + (g.countP (fun e => e.athlete.team == t) + i))
            (p + g.length + i) (by omega) (by omega))
      linarith [hstep1, hstep2, hshift]
    · have hnil : groupAdds (g :: rest) p = [] := by
        unfold groupAdds
        rw [if_neg h8]
      rw [hnil, show teamGroupPoints t [] = 0 from rfl]
      exact Finset.sum_nonneg (fun i _ => placePoints_nonneg _)

theorem ranked_length_le (ev : MeetEvent) (fins : List EventEntry) :
    (rank_entries_by_seed { ev with entries := fins }).length ≤ fins.length := by
  unfold rank_entries_by_seed sortBySeed
  rw [(insSort_perm _ _).length_eq]
  exact List.length_filter_le _ _

theorem ranked_countP_le (ev : MeetEvent) (fins : List EventEntry) (t : String) :
    (rank_entries_by_seed { ev with entries := fins }).countP
        (fun e => e.athlete.team == t) ≤
      fins.countP (fun e => e.athlete.team == t) := by
  unfold rank_entries_by_seed sortBySeed
  rw [(insSort_perm _ _).countP_eq, List.countP_filter]
  exact List.countP_mono_left (fun x _ h => ((Bool.and_eq_true _ _).mp h).1)

theorem event_proj_le_ceil (ev : MeetEvent) (fins : List EventEntry) (t : String)
    (hlen : fins.length ≤ 8) :
    event_proj_points ev fins t ≤ ceil_event_points fins t := by
  have hmain := teamGroupPoints_le t
    (tieGroups (fun e => seed_sort_key e ev) (rank_entries_by_seed { ev with entries := fins }))
    1 (le_refl 1)
    (by
      rw [tieGroups_lengths_sum]
      have h1 := ranked_length_le ev fins
      omega)
  rw [tieGroups_countP_sum] at hmain
  have hcr8 : (rank_entries_by_seed { ev with entries := fins }).countP
      (fun e => e.athlete.team == t) ≤ 8 :=
    le_trans (List.countP_le_length _) (le_trans (ranked_length_le ev fins) hlen)
  have hcr : (rank_entries_by_seed { ev with entries := fins }).countP
      (fun e => e.athlete.team == t) ≤
      min (fins.countP (fun e => e.athlete.team == t)) 8 :=
    le_min (ranked_countP_le ev fins t) hcr8
  have hmono : (∑ i ∈ Finset.range ((rank_entries_by_seed { ev with entries := fins }).countP
        (fun e => e.athlete.team == t)), placePoints (1 + i)) ≤
      ∑ i ∈ Finset.range (min (fins.countP (fun e => e.athlete.team == t)) 8),
        placePoints (1 + i) :=
    Finset.sum_le_sum_of_subset_of_nonneg (Finset.range_subset.mpr hcr)
      (fun i _ _ => placePoints_nonneg (1 + i))
  have hceil : ceil_event_points fins t =
      ∑ i ∈ Finset.range (min (fins.countP (fun e => e.athlete.team == t)) 8),
        placePoints (1 + i) := by
    show ((List.range' 1 (min (fins.countP (fun e => e.athlete.team == t) + 1) 9 - 1)).map
        placePoints).sum = _
    rw [range'_map_sum, Finset.sum_Ico_eq_sum_range]
    rw [show 1 + (min (fins.countP (fun e => e.athlete.team == t) + 1) 9 - 1) - 1 =
        min (fins.countP (fun e => e.athlete.team == t)) 8 from by omega]
  rw [hceil]
  exact le_trans hmain hmono

theorem get_finalist_entries_length_le (event : MeetEvent) (s : MeetState) (g : Gender)
    (n : Nat) : (get_finalist_entries event s g n).length ≤ n := by
  unfold get_finalist_entries
  split
  · simp
  · split
    · rw [List.length_take]
      exact min_le_left _ _
    · rename_i h1 h2
      omega

theorem proj_sum_le_ceil_sum (s : MeetState) (g : Gender) (t : String) :
    ((s.get_upcoming_finals g).map (fun ev =>
      if (get_finalist_entries ev s g 8).isEmpty then 0 else
        event_proj_points ev (get_finalist_entries ev s g 8) t)).sum ≤
    ((s.get_upcoming_finals g).map (fun ev =>
      if (get_finalist_entries ev s g 8).isEmpty then 0 else
        ceil_event_points (get_finalist_entries ev s g 8) t)).sum := by
  apply List.sum_le_sum
  intro ev _
  split
  · exact le_refl 0
  · exact event_proj_le_ceil ev _ t (get_finalist_entries_length_le ev s g 8)

theorem proj_val_ge_actual (actual : QDict) (s : MeetState) (g : Gender) (t : String) :
    (if t ∈ actual.keys then actual.val t else 0) ≤
      (compute_seed_projection actual s g).1.val t := by
  have hnn : 0 ≤ ((s.get_upcoming_finals g).map (fun ev =>
      if (get_finalist_entries ev s g 8).isEmpty then 0 else
        event_proj_points ev (get_finalist_entries ev s g 8) t)).sum :=
    sum_map_nonneg _ _ (fun ev _ => by
      split
      · exact le_refl 0
      · exact event_proj_points_nonneg _ _ _)
  show (if t ∈ actual.keys then actual.val t else 0) ≤
      (if t ∈ actual.keys then actual.val t else 0) +
        ((s.get_upcoming_finals g).map (fun ev =>
          if (get_finalist_entries ev s g 8).isEmpty then 0 else
            event_proj_points ev (get_finalist_entries ev s g 8) t)).sum
  exact le_add_of_nonneg_right hnn

theorem proj_val_nonneg (s : MeetState) (g : Gender) (t : String) :
    0 ≤ (compute_seed_projection (compute_actual_scores s g) s g).1.val t := by
  refine le_trans ?_ (proj_val_ge_actual (compute_actual_scores s g) s g t)
  split
  · exact actual_val_nonneg s g t
  · exact le_refl 0

theorem ceil_val_nonneg (s : MeetState) (g : Gender) (t : String) :
    0 ≤ (compute_optimistic_ceiling (compute_actual_scores s g) s g).val t := by
  show 0 ≤ (if t ∈ eventEntryTeams s then (compute_actual_scores s g).getD t 0 else 0) +
      ((s.get_upcoming_finals g).map (fun ev =>
        if (get_finalist_entries ev s g 8).isEmpty then 0 else
          ceil_event_points (get_finalist_entries ev s g 8) t)).sum
  apply add_nonneg
  · split
    · unfold QDict.getD
      split
      · exact actual_val_nonneg s g t
      · exact le_refl 0
    · exact le_refl 0
  · exact sum_map_nonneg _ _ (fun ev _ => by
      split
      · exact le_refl 0
      · exact ceil_event_points_nonneg _ t)

theorem proj_val_le_ceil_val (s : MeetState) (g : Gender) (t : String)
    (ht : t ∈ eventEntryTeams s) :
    (compute_seed_projection (compute_actual_scores s g) s g).1.val t ≤
      (compute_optimistic_ceiling (compute_actual_scores s g) s g).val t := by
  show (if t ∈ (compute_actual_scores s g).keys then (compute_actual_scores s g).val t
        else 0) +
      ((s.get_upcoming_finals g).map (fun ev =>
        if (get_finalist_entries ev s g 8).isEmpty then 0 else
          event_proj_points ev (get_finalist_entries ev s g 8) t)).sum ≤
    (if t ∈ eventEntryTeams s then (compute_actual_scores s g).getD t 0 else 0) +
      ((s.get_upcoming_finals g).map (fun ev =>
        if (get_finalist_entries ev s g 8).isEmpty then 0 else
          ceil_event_points (get_finalist_entries ev s g 8) t)).sum
  rw [if_pos ht]
  apply add_le_add
  · unfold QDict.getD
    exact le_refl _
  · exact proj_sum_le_ceil_sum s g t

theorem mem_proj_keys_of_mem_actual (actual : QDict) (s : MeetState) (g : Gender)
    (t : String) (h : t ∈ actual.keys) :
    t ∈ (compute_seed_projection actual s g).1.keys :=
  (mem_foldl_addKey _ _ _).mpr (Or.inl h)

theorem mem_ceil_keys_of_mem_teams (actual : QDict) (s : MeetState) (g : Gender)
    (t : String) (h : t ∈ eventEntryTeams s) :
    t ∈ (compute_optimistic_ceiling actual s g).keys :=
  (mem_foldl_addKey _ _ _).mpr (Or.inl h)

unseal Rat.add Rat.mul Rat.inv Rat.sub Rat.ofScientific in
/-- Counterexample to claim C1 as stated: in `cexCombinedState` the team
AAA scores 10 actual points through a complete combined event but appears
in no event's entry list, so `compute_optimistic_ceiling` starts it from
the `defaultdict` zero instead of its actual points: its ceiling (0) is
strictly below its seed projection (10), breaking the claimed chain. -/
theorem claim_C1_counterexample :
    (compute_optimistic_ceiling (compute_actual_scores cexCombinedState Gender.WOMEN)
        cexCombinedState Gender.WOMEN).getD "AAA" 0 = 0 ∧
    (compute_seed_projection (compute_actual_scores cexCombinedState Gender.WOMEN)
        cexCombinedState Gender.WOMEN).1.getD "AAA" 0 = 10 ∧
    ¬((compute_seed_projection (compute_actual_scores cexCombinedState Gender.WOMEN)
        cexCombinedState Gender.WOMEN).1.getD "AAA" 0 ≤
      (compute_optimistic_ceiling (compute_actual_scores cexCombinedState Gender.WOMEN)
        cexCombinedState Gender.WOMEN).getD "AAA" 0) := by
  refine ⟨by decide, by decide, by decide⟩

/-- Claim C1, amended: for every meet state, gender and team, the team's
actual points (`compute_actual_scores`) are at most its seed projection
(`compute_seed_projection` fed that actual-score dict); and for every team
that appears with a nonempty team name in some event's entry list (the
`all_teams` universe of `compute_optimistic_ceiling`), the seed projection
is at most the optimistic ceiling.  The restriction in the second part is
necessary: a team scoring only through combined events is absent from
`all_teams`, and the ceiling then omits its actual points (see the
counterexample). -/
theorem claim_C1_amended (s : MeetState) (g : Gender) (t : String) :
    (compute_actual_scores s g).getD t 0 ≤
      (compute_seed_projection (compute_actual_scores s g) s g).1.getD t 0 ∧
    (t ∈ eventEntryTeams s →
      (compute_seed_projection (compute_actual_scores s g) s g).1.getD t 0 ≤
        (compute_optimistic_ceiling (compute_actual_scores s g) s g).getD t 0) := by
  constructor
  · unfold QDict.getD
    by_cases hA : t ∈ (compute_actual_scores s g).keys
    · have hP := mem_proj_keys_of_mem_actual (compute_actual_scores s g) s g t hA
      rw [if_pos hA, if_pos hP]
      have h1 := proj_val_ge_actual (compute_actual_scores s g) s g t
      rw [if_pos hA] at h1
      exact h1
    · rw [if_neg hA]
      by_cases hP : t ∈ (compute_seed_projection (compute_actual_scores s g) s g).1.keys
      · rw [if_pos hP]
        exact proj_val_nonneg s g t
      · rw [if_neg hP]
  · intro ht
    have hC := mem_ceil_keys_of_mem_teams (compute_actual_scores s g) s g t ht
    unfold QDict.getD
    rw [if_pos hC]
    by_cases hP : t ∈ (compute_seed_projection (compute_actual_scores s g) s g).1.keys
    · rw [if_pos hP]
      exact proj_val_le_ceil_val s g t ht
    · rw [if_neg hP]
      exact ceil_val_nonneg s g t

unseal Rat.add Rat.mul Rat.inv Rat.sub Rat.ofScientific in
/-- Witness for C1's amended claim: the team XXA of the demo prelim state
is in the entry-pool universe, and both inequalities of the chain hold for
it there. -/
theorem claim_C1_witness :
    "XXA" ∈ eventEntryTeams demoPrelimState ∧
    ((compute_actual_scores demoPrelimState Gender.WOMEN).getD "XXA" 0 ≤
      (compute_seed_projection (compute_actual_scores demoPrelimState Gender.WOMEN)
        demoPrelimState Gender.WOMEN).1.getD "XXA" 0) ∧
    ((compute_seed_projection (compute_actual_scores demoPrelimState Gender.WOMEN)
        demoPrelimState Gender.WOMEN).1.getD "XXA" 0 ≤
      (compute_optimistic_ceiling (compute_actual_scores demoPrelimState Gender.WOMEN)
        demoPrelimState Gender.WOMEN).getD "XXA" 0) :=
  ⟨by decide,
   (claim_C1_amended demoPrelimState Gender.WOMEN "XXA").1,
   (claim_C1_amended demoPrelimState Gender.WOMEN "XXA").2 (by decide)⟩
